import Mathlib

/-!
Verification of the toypayments engine (src/account.rs, src/engine.rs,
src/transaction.rs).

Modelling choices:
* rust_decimal amounts are modelled as exact rationals. The claims use only
  addition, subtraction and order comparison of amounts, on which
  rust_decimal agrees with exact arithmetic (it is an exact decimal type;
  overflow is out of scope per the comment in account.rs).
* std HashMap is modelled as an association list with first-match lookup;
  insert removes any previous binding for the key, and set replaces the
  value of the first (and in reachable states only) binding, matching
  the in-place mutation through get_mut and entry().or_insert_with.
* Client ids (u16) and transaction ids (u32) are modelled as Nat: no claim
  depends on their bit width.
* Functions returning Result<(), E> while mutating self become functions
  State -> State x Option E (the new state together with the error, if any),
  so that partial mutation before an error is representable.
-/

namespace ToyPayments

/-- Association-list model of std HashMap with Nat keys. -/
abbrev AMap (α : Type) : Type := List (Nat × α)

/-- Empty map (HashMap::new). -/
def AMap.empty {α : Type} : AMap α := []

/-- First-match lookup (HashMap::get). -/
def AMap.find {α : Type} : AMap α → Nat → Option α
  | [], _ => none
  | (k1, v) :: m, k => if k1 = k then some v else AMap.find m k

/-- HashMap::contains_key. -/
def AMap.contains {α : Type} (m : AMap α) (k : Nat) : Bool :=
  (m.find k).isSome

/-- Remove every binding of a key (helper for insert). -/
def AMap.eraseKey {α : Type} : AMap α → Nat → AMap α
  | [], _ => []
  | (k1, v) :: m, k =>
    if k1 = k then AMap.eraseKey m k else (k1, v) :: AMap.eraseKey m k

/-- HashMap::insert: bind k to v, dropping any previous binding. -/
def AMap.insert {α : Type} (m : AMap α) (k : Nat) (v : α) : AMap α :=
  (k, v) :: m.eraseKey k

/-- Overwrite the value of the first binding of k, if present: the effect
of mutating through HashMap::get_mut. -/
def AMap.set {α : Type} : AMap α → Nat → α → AMap α
  | [], _, _ => []
  | (k1, w) :: m, k, v =>
    if k1 = k then (k1, v) :: m else (k1, w) :: AMap.set m k v

/-- HashMap::entry(k).or_insert_with(v): the (possibly extended) map and
the value now bound to k. -/
def AMap.getOrInsert {α : Type} (m : AMap α) (k : Nat) (v : α) : AMap α × α :=
  match m.find k with
  | some w => (m, w)
  | none => (m.insert k v, v)

/-! ## Account (src/account.rs) -/

/-- One client account, as in src/account.rs. -/
structure Account where
  client : Nat
  available : ℚ
  held : ℚ
  locked : Bool
deriving Repr, DecidableEq

/-- AccountError from src/account.rs. -/
inductive AccountError where
  | accountLocked : AccountError
  | negativeAmount : AccountError
  | insufficientFunds (requested available : ℚ) : AccountError
  | insufficientHeldFunds (requested held : ℚ) : AccountError
deriving Repr, DecidableEq

/-- Account::new. -/
def Account.new (client : Nat) : Account :=
  { client := client, available := 0, held := 0, locked := false }

/-- Account::total. -/
def Account.total (a : Account) : ℚ :=
  a.available + a.held

/-- Account::deposit. -/
def Account.deposit (a : Account) (amount : ℚ) : Except AccountError Account :=
  if a.locked then Except.error AccountError.accountLocked
  else if amount < 0 then Except.error AccountError.negativeAmount
  else Except.ok { a with available := a.available + amount }

/-- Account::withdraw. -/
def Account.withdraw (a : Account) (amount : ℚ) : Except AccountError Account :=
  if a.locked then Except.error AccountError.accountLocked
  else if amount < 0 then Except.error AccountError.negativeAmount
  else if a.available < amount then
    Except.error (AccountError.insufficientFunds amount a.available)
  else Except.ok { a with available := a.available - amount }

/-- Account::hold. -/
def Account.hold (a : Account) (amount : ℚ) : Except AccountError Account :=
  if amount < 0 then Except.error AccountError.negativeAmount
  else if a.available < amount then
    Except.error (AccountError.insufficientFunds amount a.available)
  else Except.ok { a with available := a.available - amount, held := a.held + amount }

/-- Account::release. -/
def Account.release (a : Account) (amount : ℚ) : Except AccountError Account :=
  if amount < 0 then Except.error AccountError.negativeAmount
  else if a.held < amount then
    Except.error (AccountError.insufficientHeldFunds amount a.held)
  else Except.ok { a with held := a.held - amount, available := a.available + amount }

/-- Account::chargeback. -/
def Account.chargeback (a : Account) (amount : ℚ) : Except AccountError Account :=
  if amount < 0 then Except.error AccountError.negativeAmount
  else if a.held < amount then
    Except.error (AccountError.insufficientHeldFunds amount a.held)
  else Except.ok { a with held := a.held - amount, locked := true }

/-! ## Transactions (src/transaction.rs) -/

/-- TransactionType from src/transaction.rs. -/
inductive TransactionType where
  | deposit : TransactionType
  | withdrawal : TransactionType
  | dispute : TransactionType
  | resolve : TransactionType
  | chargeback : TransactionType
deriving Repr, DecidableEq

/-- TransactionRecord: one parsed CSV row handed to the engine. -/
structure TransactionRecord where
  tx_type : TransactionType
  client : Nat
  tx : Nat
  amount : Option ℚ
deriving Repr, DecidableEq

/-- StoredTransaction: a deposit/withdrawal retained for disputes. -/
structure StoredTransaction where
  tx_type : TransactionType
  client : Nat
  amount : ℚ
  disputed : Bool
deriving Repr, DecidableEq

/-- StoredTransaction::new. -/
def StoredTransaction.new (tx_type : TransactionType) (client : Nat)
    (amount : ℚ) : StoredTransaction :=
  { tx_type := tx_type, client := client, amount := amount, disputed := false }

/-! ## Engine (src/engine.rs) -/

/-- EngineError from src/engine.rs. -/
inductive EngineError where
  | missingAmount (tx : Nat) (tx_type : TransactionType) : EngineError
  | duplicateTransaction (tx : Nat) : EngineError
  | transactionNotFound (tx : Nat) : EngineError
  | clientNotFound (client : Nat) : EngineError
  | clientMismatch (tx expected actual : Nat) : EngineError
  | alreadyDisputed (tx : Nat) : EngineError
  | notUnderDispute (tx : Nat) : EngineError
  | cannotDisputeWithdrawal (tx : Nat) : EngineError
  | accountError (tx client : Nat) (error : AccountError) : EngineError
deriving Repr, DecidableEq

/-- The payments engine state: both maps from src/engine.rs. -/
structure Engine where
  accounts : AMap Account
  transactions : AMap StoredTransaction
deriving Repr, DecidableEq

/-- Engine::new. -/
def Engine.new : Engine :=
  { accounts := AMap.empty, transactions := AMap.empty }

/-- Engine::proc_deposit. Returns the state after the call and the error,
if any; account creation through entry().or_insert_with happens before the
Account::deposit call and persists even when that call fails. -/
def Engine.proc_deposit (e : Engine) (r : TransactionRecord) :
    Engine × Option EngineError :=
  match r.amount with
  | none => (e, some (EngineError.missingAmount r.tx r.tx_type))
  | some amount =>
    if e.transactions.contains r.tx then
      (e, some (EngineError.duplicateTransaction r.tx))
    else
      match e.accounts.getOrInsert r.client (Account.new r.client) with
      | (accounts1, account) =>
        match account.deposit amount with
        | Except.error err =>
          ({ e with accounts := accounts1 },
            some (EngineError.accountError r.tx r.client err))
        | Except.ok account1 =>
          ({ accounts := accounts1.set r.client account1,
             transactions := e.transactions.insert r.tx
               (StoredTransaction.new TransactionType.deposit r.client amount) },
            none)

/-- Engine::proc_withdrawal. -/
def Engine.proc_withdrawal (e : Engine) (r : TransactionRecord) :
    Engine × Option EngineError :=
  match r.amount with
  | none => (e, some (EngineError.missingAmount r.tx r.tx_type))
  | some amount =>
    if e.transactions.contains r.tx then
      (e, some (EngineError.duplicateTransaction r.tx))
    else
      match e.accounts.getOrInsert r.client (Account.new r.client) with
      | (accounts1, account) =>
        match account.withdraw amount with
        | Except.error err =>
          ({ e with accounts := accounts1 },
            some (EngineError.accountError r.tx r.client err))
        | Except.ok account1 =>
          ({ accounts := accounts1.set r.client account1,
             transactions := e.transactions.insert r.tx
               (StoredTransaction.new TransactionType.withdrawal r.client amount) },
            none)

/-- Engine::proc_dispute. -/
def Engine.proc_dispute (e : Engine) (r : TransactionRecord) :
    Engine × Option EngineError :=
  match e.transactions.find r.tx with
  | none => (e, some (EngineError.transactionNotFound r.tx))
  | some st =>
    if st.client ≠ r.client then
      (e, some (EngineError.clientMismatch r.tx st.client r.client))
    else if st.disputed then
      (e, some (EngineError.alreadyDisputed r.tx))
    else if st.tx_type ≠ TransactionType.deposit then
      (e, some (EngineError.cannotDisputeWithdrawal r.tx))
    else
      match e.accounts.find r.client with
      | none => (e, some (EngineError.clientNotFound r.client))
      | some account =>
        match account.hold st.amount with
        | Except.error err =>
          (e, some (EngineError.accountError r.tx r.client err))
        | Except.ok account1 =>
          ({ accounts := e.accounts.set r.client account1,
             transactions := e.transactions.set r.tx { st with disputed := true } },
            none)

/-- Engine::proc_resolve. -/
def Engine.proc_resolve (e : Engine) (r : TransactionRecord) :
    Engine × Option EngineError :=
  match e.transactions.find r.tx with
  | none => (e, some (EngineError.transactionNotFound r.tx))
  | some st =>
    if st.client ≠ r.client then
      (e, some (EngineError.clientMismatch r.tx st.client r.client))
    else if ¬st.disputed then
      (e, some (EngineError.notUnderDispute r.tx))
    else
      match e.accounts.find r.client with
      | none => (e, some (EngineError.clientNotFound r.client))
      | some account =>
        match account.release st.amount with
        | Except.error err =>
          (e, some (EngineError.accountError r.tx r.client err))
        | Except.ok account1 =>
          ({ accounts := e.accounts.set r.client account1,
             transactions := e.transactions.set r.tx { st with disputed := false } },
            none)

/-- Engine::proc_chargeback. -/
def Engine.proc_chargeback (e : Engine) (r : TransactionRecord) :
    Engine × Option EngineError :=
  match e.transactions.find r.tx with
  | none => (e, some (EngineError.transactionNotFound r.tx))
  | some st =>
    if st.client ≠ r.client then
      (e, some (EngineError.clientMismatch r.tx st.client r.client))
    else if ¬st.disputed then
      (e, some (EngineError.notUnderDispute r.tx))
    else
      match e.accounts.find r.client with
      | none => (e, some (EngineError.clientNotFound r.client))
      | some account =>
        match account.chargeback st.amount with
        | Except.error err =>
          (e, some (EngineError.accountError r.tx r.client err))
        | Except.ok account1 =>
          ({ accounts := e.accounts.set r.client account1,
             transactions := e.transactions.set r.tx { st with disputed := false } },
            none)

/-- Engine::process: dispatch on the record type. -/
def Engine.process (e : Engine) (r : TransactionRecord) :
    Engine × Option EngineError :=
  match r.tx_type with
  | TransactionType.deposit => e.proc_deposit r
  | TransactionType.withdrawal => e.proc_withdrawal r
  | TransactionType.dispute => e.proc_dispute r
  | TransactionType.resolve => e.proc_resolve r
  | TransactionType.chargeback => e.proc_chargeback r

/-- Process a stream of records in order, discarding per-record errors,
as main.rs does (errors are logged and the stream continues). -/
def Engine.processAll (e : Engine) : List TransactionRecord → Engine
  | [] => e
  | r :: rs => ((e.process r).1).processAll rs

/-- Engine states reachable from Engine::new by process calls. -/
inductive Reachable : Engine → Prop where
  | base : Reachable Engine.new
  | step (r : TransactionRecord) {e : Engine} :
      Reachable e → Reachable ((e.process r).1)

/-! ## Account-level helper lemmas -/

/-- The account invariant of the spec: available and held never negative. -/
def Account.nonneg (a : Account) : Prop :=
  0 ≤ a.available ∧ 0 ≤ a.held

/-! ## Sequences of account operations (for the conservation claim) -/

/-- One call to an Account fund operation, chargeback excluded: the
operation alphabet of the conservation property. -/
inductive AccountOp where
  | deposit (amount : ℚ) : AccountOp
  | withdraw (amount : ℚ) : AccountOp
  | hold (amount : ℚ) : AccountOp
  | release (amount : ℚ) : AccountOp
deriving Repr, DecidableEq

/-- State after one call: the new account on Ok, the old account unchanged
on an error (Rust mutates self only on the Ok paths). -/
def AccountOp.apply (op : AccountOp) (a : Account) : Account :=
  match op with
  | AccountOp.deposit m =>
    match a.deposit m with
    | Except.ok b => b
    | Except.error _ => a
  | AccountOp.withdraw m =>
    match a.withdraw m with
    | Except.ok b => b
    | Except.error _ => a
  | AccountOp.hold m =>
    match a.hold m with
    | Except.ok b => b
    | Except.error _ => a
  | AccountOp.release m =>
    match a.release m with
    | Except.ok b => b
    | Except.error _ => a

/-- Contribution of one call to the net deposited sum: the amount if the
call is a deposit that returns Ok, minus the amount if it is a withdraw
that returns Ok, zero otherwise. -/
def AccountOp.delta (op : AccountOp) (a : Account) : ℚ :=
  match op with
  | AccountOp.deposit m =>
    match a.deposit m with
    | Except.ok _ => m
    | Except.error _ => 0
  | AccountOp.withdraw m =>
    match a.withdraw m with
    | Except.ok _ => -m
    | Except.error _ => 0
  | AccountOp.hold _ => 0
  | AccountOp.release _ => 0

/-- Run a finite sequence of calls left to right. -/
def Account.runOps (a : Account) : List AccountOp → Account
  | [] => a
  | op :: ops => (op.apply a).runOps ops

/-- Sum of successful deposit amounts minus successful withdraw amounts
along a run. -/
def Account.netOps (a : Account) : List AccountOp → ℚ
  | [] => 0
  | op :: ops => op.delta a + (op.apply a).netOps ops

/-- Contribution of one stored transaction to the currently-disputed total
of client c: its amount when it is owned by c and disputed, else zero. -/
def StoredTransaction.disputedAmt (st : StoredTransaction) (c : Nat) : ℚ :=
  if st.client = c ∧ st.disputed = true then st.amount else 0

/-- Sum of the disputed contributions for client c over a transaction map. -/
def AMap.dsum (m : AMap StoredTransaction) (c : Nat) : ℚ :=
  (m.map (fun p => (p.2).disputedAmt c)).sum

/-- Sum of the amounts of the stored transactions owned by client c whose
disputed flag is currently set. -/
def Engine.disputedSum (e : Engine) (c : Nat) : ℚ :=
  e.transactions.dsum c

/-- The reachable-state invariant of the engine: every stored transaction
is owned by an existing account, and every account has nonnegative
balances with held equal to the disputed total of its client. -/
def Engine.Inv (e : Engine) : Prop :=
  (∀ p ∈ e.transactions, e.accounts.contains (p.2).client = true) ∧
  (∀ c a, e.accounts.find c = some a → a.nonneg ∧ a.held = e.disputedSum c)

/-- A deposit record, as parsed from a CSV row. -/
def depositRec (client tx : Nat) (amount : ℚ) : TransactionRecord :=
  { tx_type := TransactionType.deposit, client := client, tx := tx,
    amount := some amount }

/-- A withdrawal record. -/
def withdrawalRec (client tx : Nat) (amount : ℚ) : TransactionRecord :=
  { tx_type := TransactionType.withdrawal, client := client, tx := tx,
    amount := some amount }

/-- A dispute record (no amount). -/
def disputeRec (client tx : Nat) : TransactionRecord :=
  { tx_type := TransactionType.dispute, client := client, tx := tx,
    amount := none }

/-- A resolve record (no amount). -/
def resolveRec (client tx : Nat) : TransactionRecord :=
  { tx_type := TransactionType.resolve, client := client, tx := tx,
    amount := none }

/-- A chargeback record (no amount). -/
def chargebackRec (client tx : Nat) : TransactionRecord :=
  { tx_type := TransactionType.chargeback, client := client, tx := tx,
    amount := none }

theorem AMap.find_eraseKey_ne {α : Type} (m : AMap α) (k k1 : Nat) (h : k1 ≠ k) :
    (m.eraseKey k).find k1 = m.find k1 := by
  induction m with
  | nil => rfl
  | cons p m ih =>
    obtain ⟨k2, v⟩ := p
    by_cases h2 : k2 = k
    · subst h2
      simp [AMap.eraseKey, AMap.find, Ne.symm h, ih]
    · by_cases h3 : k2 = k1 <;> simp [AMap.eraseKey, AMap.find, h2, h3, h, ih]

theorem AMap.find_eraseKey_self {α : Type} (m : AMap α) (k : Nat) :
    (m.eraseKey k).find k = none := by
  induction m with
  | nil => rfl
  | cons p m ih =>
    obtain ⟨k2, v⟩ := p
    by_cases h2 : k2 = k <;> simp [AMap.eraseKey, AMap.find, h2, ih]

theorem AMap.find_insert {α : Type} (m : AMap α) (k k1 : Nat) (v : α) :
    (m.insert k v).find k1 = if k = k1 then some v else m.find k1 := by
  by_cases h : k = k1
  · subst h; simp [AMap.insert, AMap.find]
  · simp [AMap.insert, AMap.find, h, AMap.find_eraseKey_ne m k k1 (Ne.symm h)]

theorem AMap.find_set {α : Type} (m : AMap α) (k k1 : Nat) (v : α) :
    (m.set k v).find k1 =
      if k = k1 then (m.find k).map (fun _ => v) else m.find k1 := by
  induction m with
  | nil => by_cases h : k = k1 <;> simp [AMap.set, AMap.find, h]
  | cons p m ih =>
    obtain ⟨k2, w⟩ := p
    by_cases h2 : k2 = k
    · subst h2
      by_cases h : k2 = k1 <;> simp [AMap.set, AMap.find, h, ih]
    · by_cases h : k = k1
      · subst h
        simp [AMap.set, AMap.find, h2, Ne.symm h2, ih]
      · by_cases h3 : k2 = k1 <;>
          simp [AMap.set, AMap.find, h2, h3, ih, h, Ne.symm h]

theorem AMap.eraseKey_of_find_none {α : Type} (m : AMap α) (k : Nat)
    (h : m.find k = none) : m.eraseKey k = m := by
  induction m with
  | nil => rfl
  | cons p m ih =>
    obtain ⟨k2, v⟩ := p
    by_cases h2 : k2 = k
    · subst h2; simp [AMap.find] at h
    · simp [AMap.find, h2] at h
      simp [AMap.eraseKey, h2, ih h]

theorem AMap.find_mem {α : Type} (m : AMap α) (k : Nat) (v : α)
    (h : m.find k = some v) : (k, v) ∈ m := by
  induction m with
  | nil => simp [AMap.find] at h
  | cons p m ih =>
    obtain ⟨k2, w⟩ := p
    by_cases h2 : k2 = k
    · subst h2
      simp [AMap.find] at h
      simp [h]
    · simp [AMap.find, h2] at h
      exact List.mem_cons_of_mem _ (ih h)

theorem Account.deposit_ok_nonneg {a b : Account} {m : ℚ} (ha : a.nonneg)
    (h : a.deposit m = Except.ok b) : b.nonneg := by
  unfold Account.deposit at h
  split at h
  · exact absurd h (by simp)
  · split at h
    · exact absurd h (by simp)
    · rename_i hneg
      injection h with h
      subst h
      exact ⟨by dsimp; push_neg at hneg; linarith [ha.1], ha.2⟩

theorem Account.withdraw_ok_nonneg {a b : Account} {m : ℚ} (ha : a.nonneg)
    (h : a.withdraw m = Except.ok b) : b.nonneg := by
  unfold Account.withdraw at h
  split at h
  · exact absurd h (by simp)
  · split at h
    · exact absurd h (by simp)
    · split at h
      · exact absurd h (by simp)
      · rename_i hlt
        injection h with h
        subst h
        exact ⟨by dsimp; push_neg at hlt; linarith, ha.2⟩

theorem Account.hold_ok_nonneg {a b : Account} {m : ℚ} (ha : a.nonneg)
    (h : a.hold m = Except.ok b) : b.nonneg := by
  unfold Account.hold at h
  split at h
  · exact absurd h (by simp)
  · split at h
    · exact absurd h (by simp)
    · rename_i hneg hlt
      injection h with h
      subst h
      push_neg at hneg hlt
      exact ⟨by simpa using hlt, by dsimp; linarith [ha.2]⟩

theorem Account.release_ok_nonneg {a b : Account} {m : ℚ} (ha : a.nonneg)
    (h : a.release m = Except.ok b) : b.nonneg := by
  unfold Account.release at h
  split at h
  · exact absurd h (by simp)
  · split at h
    · exact absurd h (by simp)
    · rename_i hneg hlt
      injection h with h
      subst h
      push_neg at hneg hlt
      exact ⟨by dsimp; linarith [ha.1], by simpa using hlt⟩

theorem Account.chargeback_ok_nonneg {a b : Account} {m : ℚ} (ha : a.nonneg)
    (h : a.chargeback m = Except.ok b) : b.nonneg := by
  unfold Account.chargeback at h
  split at h
  · exact absurd h (by simp)
  · split at h
    · exact absurd h (by simp)
    · rename_i hneg hlt
      injection h with h
      subst h
      push_neg at hneg hlt
      exact ⟨ha.1, by simpa using hlt⟩

theorem Account.hold_ok_iff {a : Account} {m : ℚ} :
    (∃ b, a.hold m = Except.ok b) ↔ 0 ≤ m ∧ m ≤ a.available := by
  unfold Account.hold
  constructor
  · rintro ⟨b, hb⟩
    split at hb
    · exact absurd hb (by simp)
    · split at hb
      · exact absurd hb (by simp)
      · rename_i hneg hlt
        push_neg at hneg hlt
        exact ⟨hneg, hlt⟩
  · rintro ⟨h0, h1⟩
    exact ⟨{ a with available := a.available - m, held := a.held + m },
      by rw [if_neg (by push_neg; exact h0), if_neg (by push_neg; exact h1)]⟩

theorem Account.hold_ok_eq {a : Account} {m : ℚ} (h0 : 0 ≤ m)
    (h1 : m ≤ a.available) :
    a.hold m =
      Except.ok { a with available := a.available - m, held := a.held + m } := by
  unfold Account.hold
  rw [if_neg (by push_neg; exact h0), if_neg (by push_neg; exact h1)]

theorem Account.release_ok_iff {a : Account} {m : ℚ} :
    (∃ b, a.release m = Except.ok b) ↔ 0 ≤ m ∧ m ≤ a.held := by
  unfold Account.release
  constructor
  · rintro ⟨b, hb⟩
    split at hb
    · exact absurd hb (by simp)
    · split at hb
      · exact absurd hb (by simp)
      · rename_i hneg hlt
        push_neg at hneg hlt
        exact ⟨hneg, hlt⟩
  · rintro ⟨h0, h1⟩
    exact ⟨{ a with held := a.held - m, available := a.available + m },
      by rw [if_neg (by push_neg; exact h0), if_neg (by push_neg; exact h1)]⟩

theorem Account.release_ok_eq {a : Account} {m : ℚ} (h0 : 0 ≤ m)
    (h1 : m ≤ a.held) :
    a.release m =
      Except.ok { a with held := a.held - m, available := a.available + m } := by
  unfold Account.release
  rw [if_neg (by push_neg; exact h0), if_neg (by push_neg; exact h1)]

theorem Account.chargeback_ok_iff {a : Account} {m : ℚ} :
    (∃ b, a.chargeback m = Except.ok b) ↔ 0 ≤ m ∧ m ≤ a.held := by
  unfold Account.chargeback
  constructor
  · rintro ⟨b, hb⟩
    split at hb
    · exact absurd hb (by simp)
    · split at hb
      · exact absurd hb (by simp)
      · rename_i hneg hlt
        push_neg at hneg hlt
        exact ⟨hneg, hlt⟩
  · rintro ⟨h0, h1⟩
    exact ⟨{ a with held := a.held - m, locked := true },
      by rw [if_neg (by push_neg; exact h0), if_neg (by push_neg; exact h1)]⟩

theorem Account.chargeback_ok_eq {a : Account} {m : ℚ} (h0 : 0 ≤ m)
    (h1 : m ≤ a.held) :
    a.chargeback m =
      Except.ok { a with held := a.held - m, locked := true } := by
  unfold Account.chargeback
  rw [if_neg (by push_neg; exact h0), if_neg (by push_neg; exact h1)]

theorem Account.deposit_locked {a : Account} {m : ℚ} (h : a.locked = true) :
    a.deposit m = Except.error AccountError.accountLocked := by
  unfold Account.deposit
  rw [if_pos h]

theorem Account.withdraw_locked {a : Account} {m : ℚ} (h : a.locked = true) :
    a.withdraw m = Except.error AccountError.accountLocked := by
  unfold Account.withdraw
  rw [if_pos h]

/-- Successful account operations never clear the locked flag. -/
theorem Account.locked_mono {a b : Account} (h : a.locked = true)
    (hop : (∃ m, a.deposit m = Except.ok b) ∨ (∃ m, a.withdraw m = Except.ok b) ∨
      (∃ m, a.hold m = Except.ok b) ∨ (∃ m, a.release m = Except.ok b) ∨
      (∃ m, a.chargeback m = Except.ok b)) : b.locked = true := by
  rcases hop with ⟨m, hm⟩ | ⟨m, hm⟩ | ⟨m, hm⟩ | ⟨m, hm⟩ | ⟨m, hm⟩
  · unfold Account.deposit at hm
    repeat' split at hm
    all_goals first
      | (injection hm with hm; subst hm; exact h)
      | exact absurd hm (by simp)
  · unfold Account.withdraw at hm
    repeat' split at hm
    all_goals first
      | (injection hm with hm; subst hm; exact h)
      | exact absurd hm (by simp)
  · unfold Account.hold at hm
    repeat' split at hm
    all_goals first
      | (injection hm with hm; subst hm; exact h)
      | exact absurd hm (by simp)
  · unfold Account.release at hm
    repeat' split at hm
    all_goals first
      | (injection hm with hm; subst hm; exact h)
      | exact absurd hm (by simp)
  · unfold Account.chargeback at hm
    repeat' split at hm
    all_goals first
      | (injection hm with hm; subst hm; rfl)
      | exact absurd hm (by simp)

theorem Account.deposit_ok_inv {a b : Account} {m : ℚ}
    (h : a.deposit m = Except.ok b) :
    b = { a with available := a.available + m } ∧ a.locked = false ∧ 0 ≤ m := by
  unfold Account.deposit at h
  split at h
  · exact absurd h (by simp)
  · split at h
    · exact absurd h (by simp)
    · rename_i hlock hneg
      injection h with h
      exact ⟨h.symm, by simpa using hlock, by push_neg at hneg; exact hneg⟩

theorem Account.withdraw_ok_inv {a b : Account} {m : ℚ}
    (h : a.withdraw m = Except.ok b) :
    b = { a with available := a.available - m } ∧ a.locked = false ∧
      0 ≤ m ∧ m ≤ a.available := by
  unfold Account.withdraw at h
  split at h
  · exact absurd h (by simp)
  · split at h
    · exact absurd h (by simp)
    · split at h
      · exact absurd h (by simp)
      · rename_i hlock hneg hlt
        injection h with h
        push_neg at hneg hlt
        exact ⟨h.symm, by simpa using hlock, hneg, hlt⟩

theorem Account.hold_ok_inv {a b : Account} {m : ℚ}
    (h : a.hold m = Except.ok b) :
    b = { a with available := a.available - m, held := a.held + m } ∧
      0 ≤ m ∧ m ≤ a.available := by
  unfold Account.hold at h
  split at h
  · exact absurd h (by simp)
  · split at h
    · exact absurd h (by simp)
    · rename_i hneg hlt
      injection h with h
      push_neg at hneg hlt
      exact ⟨h.symm, hneg, hlt⟩

theorem Account.release_ok_inv {a b : Account} {m : ℚ}
    (h : a.release m = Except.ok b) :
    b = { a with held := a.held - m, available := a.available + m } ∧
      0 ≤ m ∧ m ≤ a.held := by
  unfold Account.release at h
  split at h
  · exact absurd h (by simp)
  · split at h
    · exact absurd h (by simp)
    · rename_i hneg hlt
      injection h with h
      push_neg at hneg hlt
      exact ⟨h.symm, hneg, hlt⟩

theorem Account.chargeback_ok_inv {a b : Account} {m : ℚ}
    (h : a.chargeback m = Except.ok b) :
    b = { a with held := a.held - m, locked := true } ∧
      0 ≤ m ∧ m ≤ a.held := by
  unfold Account.chargeback at h
  split at h
  · exact absurd h (by simp)
  · split at h
    · exact absurd h (by simp)
    · rename_i hneg hlt
      injection h with h
      push_neg at hneg hlt
      exact ⟨h.symm, hneg, hlt⟩

theorem AccountOp.total_apply (op : AccountOp) (a : Account) :
    (op.apply a).total = a.total + op.delta a := by
  cases op with
  | deposit m =>
    dsimp only [AccountOp.apply, AccountOp.delta]
    rcases h : a.deposit m with e | b <;> simp only [h]
    · simp
    · obtain ⟨hb, -, -⟩ := Account.deposit_ok_inv h
      subst hb
      simp [Account.total]
      try ring
  | withdraw m =>
    dsimp only [AccountOp.apply, AccountOp.delta]
    rcases h : a.withdraw m with e | b <;> simp only [h]
    · simp
    · obtain ⟨hb, -, -, -⟩ := Account.withdraw_ok_inv h
      subst hb
      simp [Account.total]
      try ring
  | hold m =>
    dsimp only [AccountOp.apply, AccountOp.delta]
    rcases h : a.hold m with e | b <;> simp only [h]
    · simp
    · obtain ⟨hb, -, -⟩ := Account.hold_ok_inv h
      subst hb
      simp [Account.total]
      try ring
  | release m =>
    dsimp only [AccountOp.apply, AccountOp.delta]
    rcases h : a.release m with e | b <;> simp only [h]
    · simp
    · obtain ⟨hb, -, -⟩ := Account.release_ok_inv h
      subst hb
      simp [Account.total]
      try ring

theorem Account.runOps_total (ops : List AccountOp) : ∀ a : Account,
    (a.runOps ops).total = a.total + a.netOps ops := by
  induction ops with
  | nil => intro a; simp [Account.runOps, Account.netOps]
  | cons op ops ih =>
    intro a
    rw [Account.runOps, Account.netOps, ih (op.apply a), AccountOp.total_apply]
    ring

theorem AMap.contains_set {α : Type} (m : AMap α) (k k1 : Nat) (v : α) :
    (m.set k v).contains k1 = m.contains k1 := by
  unfold AMap.contains
  rw [AMap.find_set]
  by_cases h : k = k1
  · subst h; simp
  · simp [h]

theorem AMap.contains_insert_of_contains {α : Type} (m : AMap α) (k k1 : Nat)
    (v : α) (h : m.contains k1 = true) : (m.insert k v).contains k1 = true := by
  unfold AMap.contains at h ⊢
  rw [AMap.find_insert]
  by_cases hk : k = k1 <;> simp [hk, h]

theorem AMap.contains_insert_self {α : Type} (m : AMap α) (k : Nat) (v : α) :
    (m.insert k v).contains k = true := by
  unfold AMap.contains
  rw [AMap.find_insert]
  simp

theorem AMap.mem_eraseKey {α : Type} (m : AMap α) (k : Nat) (p : Nat × α)
    (h : p ∈ m.eraseKey k) : p ∈ m := by
  induction m with
  | nil => simpa [AMap.eraseKey] using h
  | cons q m ih =>
    obtain ⟨k2, v⟩ := q
    by_cases h2 : k2 = k
    · simp only [AMap.eraseKey, if_pos h2] at h
      exact List.mem_cons_of_mem _ (ih h)
    · simp only [AMap.eraseKey, if_neg h2] at h
      rcases List.mem_cons.mp h with h3 | h3
      · exact h3 ▸ List.mem_cons_self _ _
      · exact List.mem_cons_of_mem _ (ih h3)

theorem AMap.mem_insert {α : Type} (m : AMap α) (k : Nat) (v : α)
    (p : Nat × α) (h : p ∈ m.insert k v) : p = (k, v) ∨ p ∈ m := by
  unfold AMap.insert at h
  rcases List.mem_cons.mp h with h1 | h1
  · exact Or.inl h1
  · exact Or.inr (AMap.mem_eraseKey m k p h1)

theorem AMap.mem_set {α : Type} (m : AMap α) (k : Nat) (v : α)
    (p : Nat × α) (h : p ∈ m.set k v) : p = (k, v) ∨ p ∈ m := by
  induction m with
  | nil => simp [AMap.set] at h
  | cons q m ih =>
    obtain ⟨k2, w⟩ := q
    by_cases h2 : k2 = k
    · subst h2
      simp only [AMap.set, if_pos rfl] at h
      rcases List.mem_cons.mp h with h3 | h3
      · exact Or.inl h3
      · exact Or.inr (List.mem_cons_of_mem _ h3)
    · simp only [AMap.set, if_neg h2] at h
      rcases List.mem_cons.mp h with h3 | h3
      · exact Or.inr (h3 ▸ List.mem_cons_self _ _)
      · rcases ih h3 with h4 | h4
        · exact Or.inl h4
        · exact Or.inr (List.mem_cons_of_mem _ h4)

theorem AMap.dsum_insert {m : AMap StoredTransaction} {t : Nat}
    {st : StoredTransaction} (c : Nat) (h : m.find t = none) :
    (m.insert t st).dsum c = st.disputedAmt c + m.dsum c := by
  unfold AMap.dsum AMap.insert
  rw [AMap.eraseKey_of_find_none m t h]
  simp

theorem AMap.dsum_set {m : AMap StoredTransaction} {t : Nat}
    {st : StoredTransaction} (st1 : StoredTransaction) (c : Nat)
    (h : m.find t = some st) :
    (m.set t st1).dsum c =
      m.dsum c - st.disputedAmt c + st1.disputedAmt c := by
  induction m with
  | nil => simp [AMap.find] at h
  | cons q m ih =>
    obtain ⟨k2, w⟩ := q
    by_cases h2 : k2 = t
    · subst h2
      simp [AMap.find] at h
      subst h
      simp only [AMap.set, if_pos rfl]
      unfold AMap.dsum
      simp
      ring
    · simp only [AMap.find, if_neg h2] at h
      simp only [AMap.set, if_neg h2]
      unfold AMap.dsum at ih ⊢
      simp only [List.map_cons, List.sum_cons, ih h]
      ring

theorem AMap.dsum_eq_zero {m : AMap StoredTransaction} {c : Nat}
    (h : ∀ p ∈ m, (p.2).client ≠ c) : m.dsum c = 0 := by
  induction m with
  | nil => rfl
  | cons q m ih =>
    unfold AMap.dsum at ih ⊢
    simp only [List.map_cons, List.sum_cons]
    rw [ih (fun p hp => h p (List.mem_cons_of_mem _ hp))]
    have hq : (q.2).client ≠ c := h q (List.mem_cons_self _ _)
    simp [StoredTransaction.disputedAmt, hq]

theorem AMap.getOrInsert_spec {α : Type} (m : AMap α) (k : Nat) (v : α) :
    (m.find k = some ((m.getOrInsert k v).2) ∧ (m.getOrInsert k v).1 = m) ∨
    (m.find k = none ∧ m.getOrInsert k v = (m.insert k v, v)) := by
  unfold AMap.getOrInsert
  rcases h : m.find k with _ | w
  · exact Or.inr ⟨rfl, rfl⟩
  · exact Or.inl ⟨rfl, rfl⟩

theorem Engine.proc_deposit_spec (e : Engine) (r : TransactionRecord) :
    (r.amount = none ∧
      e.proc_deposit r = (e, some (EngineError.missingAmount r.tx r.tx_type))) ∨
    (∃ m, r.amount = some m ∧ e.transactions.contains r.tx = true ∧
      e.proc_deposit r = (e, some (EngineError.duplicateTransaction r.tx))) ∨
    (∃ m A1 a1 err, r.amount = some m ∧ e.transactions.contains r.tx = false ∧
      e.accounts.getOrInsert r.client (Account.new r.client) = (A1, a1) ∧
      a1.deposit m = Except.error err ∧
      e.proc_deposit r =
        ({ e with accounts := A1 },
          some (EngineError.accountError r.tx r.client err))) ∨
    (∃ m A1 a1 b, r.amount = some m ∧ e.transactions.contains r.tx = false ∧
      e.accounts.getOrInsert r.client (Account.new r.client) = (A1, a1) ∧
      a1.deposit m = Except.ok b ∧
      e.proc_deposit r =
        ({ accounts := A1.set r.client b,
           transactions := e.transactions.insert r.tx
             (StoredTransaction.new TransactionType.deposit r.client m) },
          none)) := by
  unfold Engine.proc_deposit
  rcases hamt : r.amount with _ | m
  · exact Or.inl ⟨rfl, rfl⟩
  · dsimp only
    by_cases hdup : e.transactions.contains r.tx
    · rw [if_pos hdup]
      exact Or.inr (Or.inl ⟨m, rfl, hdup, rfl⟩)
    · rw [if_neg hdup]
      rcases hgoi : e.accounts.getOrInsert r.client (Account.new r.client)
        with ⟨A1, a1⟩
      rcases hdep : a1.deposit m with err | b
      · exact Or.inr (Or.inr (Or.inl
          ⟨m, A1, a1, err, rfl, by simpa using hdup, rfl, hdep, rfl⟩))
      · exact Or.inr (Or.inr (Or.inr
          ⟨m, A1, a1, b, rfl, by simpa using hdup, rfl, hdep, rfl⟩))

theorem Engine.proc_withdrawal_spec (e : Engine) (r : TransactionRecord) :
    (r.amount = none ∧
      e.proc_withdrawal r = (e, some (EngineError.missingAmount r.tx r.tx_type))) ∨
    (∃ m, r.amount = some m ∧ e.transactions.contains r.tx = true ∧
      e.proc_withdrawal r = (e, some (EngineError.duplicateTransaction r.tx))) ∨
    (∃ m A1 a1 err, r.amount = some m ∧ e.transactions.contains r.tx = false ∧
      e.accounts.getOrInsert r.client (Account.new r.client) = (A1, a1) ∧
      a1.withdraw m = Except.error err ∧
      e.proc_withdrawal r =
        ({ e with accounts := A1 },
          some (EngineError.accountError r.tx r.client err))) ∨
    (∃ m A1 a1 b, r.amount = some m ∧ e.transactions.contains r.tx = false ∧
      e.accounts.getOrInsert r.client (Account.new r.client) = (A1, a1) ∧
      a1.withdraw m = Except.ok b ∧
      e.proc_withdrawal r =
        ({ accounts := A1.set r.client b,
           transactions := e.transactions.insert r.tx
             (StoredTransaction.new TransactionType.withdrawal r.client m) },
          none)) := by
  unfold Engine.proc_withdrawal
  rcases hamt : r.amount with _ | m
  · exact Or.inl ⟨rfl, rfl⟩
  · dsimp only
    by_cases hdup : e.transactions.contains r.tx
    · rw [if_pos hdup]
      exact Or.inr (Or.inl ⟨m, rfl, hdup, rfl⟩)
    · rw [if_neg hdup]
      rcases hgoi : e.accounts.getOrInsert r.client (Account.new r.client)
        with ⟨A1, a1⟩
      rcases hwd : a1.withdraw m with err | b
      · exact Or.inr (Or.inr (Or.inl
          ⟨m, A1, a1, err, rfl, by simpa using hdup, rfl, hwd, rfl⟩))
      · exact Or.inr (Or.inr (Or.inr
          ⟨m, A1, a1, b, rfl, by simpa using hdup, rfl, hwd, rfl⟩))

theorem Engine.proc_dispute_spec (e : Engine) (r : TransactionRecord) :
    (e.transactions.find r.tx = none ∧
      e.proc_dispute r = (e, some (EngineError.transactionNotFound r.tx))) ∨
    (∃ st, e.transactions.find r.tx = some st ∧ st.client ≠ r.client ∧
      e.proc_dispute r =
        (e, some (EngineError.clientMismatch r.tx st.client r.client))) ∨
    (∃ st, e.transactions.find r.tx = some st ∧ st.client = r.client ∧
      st.disputed = true ∧
      e.proc_dispute r = (e, some (EngineError.alreadyDisputed r.tx))) ∨
    (∃ st, e.transactions.find r.tx = some st ∧ st.client = r.client ∧
      st.disputed = false ∧ st.tx_type ≠ TransactionType.deposit ∧
      e.proc_dispute r = (e, some (EngineError.cannotDisputeWithdrawal r.tx))) ∨
    (∃ st, e.transactions.find r.tx = some st ∧ st.client = r.client ∧
      st.disputed = false ∧ st.tx_type = TransactionType.deposit ∧
      e.accounts.find r.client = none ∧
      e.proc_dispute r = (e, some (EngineError.clientNotFound r.client))) ∨
    (∃ st a err, e.transactions.find r.tx = some st ∧ st.client = r.client ∧
      st.disputed = false ∧ st.tx_type = TransactionType.deposit ∧
      e.accounts.find r.client = some a ∧
      a.hold st.amount = Except.error err ∧
      e.proc_dispute r = (e, some (EngineError.accountError r.tx r.client err))) ∨
    (∃ st a b, e.transactions.find r.tx = some st ∧ st.client = r.client ∧
      st.disputed = false ∧ st.tx_type = TransactionType.deposit ∧
      e.accounts.find r.client = some a ∧
      a.hold st.amount = Except.ok b ∧
      e.proc_dispute r =
        ({ accounts := e.accounts.set r.client b,
           transactions := e.transactions.set r.tx { st with disputed := true } },
          none)) := by
  unfold Engine.proc_dispute
  rcases hft : e.transactions.find r.tx with _ | st
  · exact Or.inl ⟨rfl, rfl⟩
  · dsimp only
    by_cases hcl : st.client = r.client
    · rw [if_neg (not_not_intro hcl)]
      by_cases hd : st.disputed
      · rw [if_pos hd]
        exact Or.inr (Or.inr (Or.inl ⟨st, rfl, hcl, hd, rfl⟩))
      · rw [if_neg hd]
        by_cases hty : st.tx_type = TransactionType.deposit
        · rw [if_neg (not_not_intro hty)]
          rcases hfa : e.accounts.find r.client with _ | a
          · exact Or.inr (Or.inr (Or.inr (Or.inr (Or.inl
              ⟨st, rfl, hcl, by simpa using hd, hty, rfl, rfl⟩))))
          · dsimp only
            rcases hh : a.hold st.amount with err | b
            · exact Or.inr (Or.inr (Or.inr (Or.inr (Or.inr (Or.inl
                ⟨st, a, err, rfl, hcl, by simpa using hd, hty, rfl, hh, rfl⟩)))))
            · exact Or.inr (Or.inr (Or.inr (Or.inr (Or.inr (Or.inr
                ⟨st, a, b, rfl, hcl, by simpa using hd, hty, rfl, hh, rfl⟩)))))
        · rw [if_pos hty]
          exact Or.inr (Or.inr (Or.inr (Or.inl
            ⟨st, rfl, hcl, by simpa using hd, hty, rfl⟩)))
    · rw [if_pos hcl]
      exact Or.inr (Or.inl ⟨st, rfl, hcl, rfl⟩)

theorem Engine.proc_resolve_spec (e : Engine) (r : TransactionRecord) :
    (e.transactions.find r.tx = none ∧
      e.proc_resolve r = (e, some (EngineError.transactionNotFound r.tx))) ∨
    (∃ st, e.transactions.find r.tx = some st ∧ st.client ≠ r.client ∧
      e.proc_resolve r =
        (e, some (EngineError.clientMismatch r.tx st.client r.client))) ∨
    (∃ st, e.transactions.find r.tx = some st ∧ st.client = r.client ∧
      st.disputed = false ∧
      e.proc_resolve r = (e, some (EngineError.notUnderDispute r.tx))) ∨
    (∃ st, e.transactions.find r.tx = some st ∧ st.client = r.client ∧
      st.disputed = true ∧ e.accounts.find r.client = none ∧
      e.proc_resolve r = (e, some (EngineError.clientNotFound r.client))) ∨
    (∃ st a err, e.transactions.find r.tx = some st ∧ st.client = r.client ∧
      st.disputed = true ∧ e.accounts.find r.client = some a ∧
      a.release st.amount = Except.error err ∧
      e.proc_resolve r = (e, some (EngineError.accountError r.tx r.client err))) ∨
    (∃ st a b, e.transactions.find r.tx = some st ∧ st.client = r.client ∧
      st.disputed = true ∧ e.accounts.find r.client = some a ∧
      a.release st.amount = Except.ok b ∧
      e.proc_resolve r =
        ({ accounts := e.accounts.set r.client b,
           transactions := e.transactions.set r.tx { st with disputed := false } },
          none)) := by
  unfold Engine.proc_resolve
  rcases hft : e.transactions.find r.tx with _ | st
  · exact Or.inl ⟨rfl, rfl⟩
  · dsimp only
    by_cases hcl : st.client = r.client
    · rw [if_neg (not_not_intro hcl)]
      by_cases hd : st.disputed
      · rw [if_neg (not_not_intro hd)]
        rcases hfa : e.accounts.find r.client with _ | a
        · exact Or.inr (Or.inr (Or.inr (Or.inl ⟨st, rfl, hcl, hd, rfl, rfl⟩)))
        · dsimp only
          rcases hrel : a.release st.amount with err | b
          · exact Or.inr (Or.inr (Or.inr (Or.inr (Or.inl
              ⟨st, a, err, rfl, hcl, hd, rfl, hrel, rfl⟩))))
          · exact Or.inr (Or.inr (Or.inr (Or.inr (Or.inr
              ⟨st, a, b, rfl, hcl, hd, rfl, hrel, rfl⟩))))
      · rw [if_pos hd]
        exact Or.inr (Or.inr (Or.inl ⟨st, rfl, hcl, by simpa using hd, rfl⟩))
    · rw [if_pos hcl]
      exact Or.inr (Or.inl ⟨st, rfl, hcl, rfl⟩)

theorem Engine.proc_chargeback_spec (e : Engine) (r : TransactionRecord) :
    (e.transactions.find r.tx = none ∧
      e.proc_chargeback r = (e, some (EngineError.transactionNotFound r.tx))) ∨
    (∃ st, e.transactions.find r.tx = some st ∧ st.client ≠ r.client ∧
      e.proc_chargeback r =
        (e, some (EngineError.clientMismatch r.tx st.client r.client))) ∨
    (∃ st, e.transactions.find r.tx = some st ∧ st.client = r.client ∧
      st.disputed = false ∧
      e.proc_chargeback r = (e, some (EngineError.notUnderDispute r.tx))) ∨
    (∃ st, e.transactions.find r.tx = some st ∧ st.client = r.client ∧
      st.disputed = true ∧ e.accounts.find r.client = none ∧
      e.proc_chargeback r = (e, some (EngineError.clientNotFound r.client))) ∨
    (∃ st a err, e.transactions.find r.tx = some st ∧ st.client = r.client ∧
      st.disputed = true ∧ e.accounts.find r.client = some a ∧
      a.chargeback st.amount = Except.error err ∧
      e.proc_chargeback r =
        (e, some (EngineError.accountError r.tx r.client err))) ∨
    (∃ st a b, e.transactions.find r.tx = some st ∧ st.client = r.client ∧
      st.disputed = true ∧ e.accounts.find r.client = some a ∧
      a.chargeback st.amount = Except.ok b ∧
      e.proc_chargeback r =
        ({ accounts := e.accounts.set r.client b,
           transactions := e.transactions.set r.tx { st with disputed := false } },
          none)) := by
  unfold Engine.proc_chargeback
  rcases hft : e.transactions.find r.tx with _ | st
  · exact Or.inl ⟨rfl, rfl⟩
  · dsimp only
    by_cases hcl : st.client = r.client
    · rw [if_neg (not_not_intro hcl)]
      by_cases hd : st.disputed
      · rw [if_neg (not_not_intro hd)]
        rcases hfa : e.accounts.find r.client with _ | a
        · exact Or.inr (Or.inr (Or.inr (Or.inl ⟨st, rfl, hcl, hd, rfl, rfl⟩)))
        · dsimp only
          rcases hcb : a.chargeback st.amount with err | b
          · exact Or.inr (Or.inr (Or.inr (Or.inr (Or.inl
              ⟨st, a, err, rfl, hcl, hd, rfl, hcb, rfl⟩))))
          · exact Or.inr (Or.inr (Or.inr (Or.inr (Or.inr
              ⟨st, a, b, rfl, hcl, hd, rfl, hcb, rfl⟩))))
      · rw [if_pos hd]
        exact Or.inr (Or.inr (Or.inl ⟨st, rfl, hcl, by simpa using hd, rfl⟩))
    · rw [if_pos hcl]
      exact Or.inr (Or.inl ⟨st, rfl, hcl, rfl⟩)

theorem AMap.contains_eq_false_iff {α : Type} (m : AMap α) (k : Nat) :
    m.contains k = false ↔ m.find k = none := by
  unfold AMap.contains
  cases m.find k <;> simp

theorem AMap.contains_eq_true_iff {α : Type} (m : AMap α) (k : Nat) :
    m.contains k = true ↔ ∃ v, m.find k = some v := by
  unfold AMap.contains
  cases m.find k <;> simp

/-- A client with no account owns no stored transactions, so its disputed
total is zero. -/
theorem Engine.dsum_zero_of_unowned {A : AMap Account}
    {T : AMap StoredTransaction} {c : Nat}
    (htx : ∀ p ∈ T, A.contains (p.2).client = true)
    (hfind : A.find c = none) : T.dsum c = 0 := by
  refine AMap.dsum_eq_zero (fun p hp hpc => ?_)
  have h1 := htx p hp
  rw [hpc] at h1
  rw [(AMap.contains_eq_true_iff A c).mp h1 |>.choose_spec] at hfind
  exact Option.noConfusion hfind

/-- Invariant preservation for the two set-in-place updates performed by a
successful dispute, resolve or chargeback. -/
theorem Engine.inv_setset {e : Engine} (hinv : e.Inv) {tx cl : Nat}
    {st st1 : StoredTransaction} {a b : Account}
    (hft : e.transactions.find tx = some st) (hcl : st.client = cl)
    (hfa : e.accounts.find cl = some a) (hb : b.nonneg)
    (hheld : b.held = a.held - st.disputedAmt cl + st1.disputedAmt cl)
    (hclient1 : st1.client = st.client) :
    Engine.Inv { accounts := e.accounts.set cl b,
                 transactions := e.transactions.set tx st1 } := by
  obtain ⟨htx, hacc⟩ := hinv
  constructor
  · intro p hp
    rcases AMap.mem_set _ _ _ _ hp with hp1 | hp1
    · subst hp1
      show (e.accounts.set cl b).contains st1.client = true
      rw [AMap.contains_set, hclient1, hcl]
      rw [AMap.contains_eq_true_iff]
      exact ⟨a, hfa⟩
    · show (e.accounts.set cl b).contains (p.2).client = true
      rw [AMap.contains_set]
      exact htx p hp1
  · intro c a2 hfc
    rw [AMap.find_set] at hfc
    by_cases hc : cl = c
    · subst hc
      rw [if_pos rfl, hfa] at hfc
      simp only [Option.map] at hfc
      injection hfc with hfc
      subst hfc
      refine ⟨hb, ?_⟩
      show b.held = (e.transactions.set tx st1).dsum cl
      rw [AMap.dsum_set st1 cl hft, hheld,
        show e.transactions.dsum cl = e.disputedSum cl from rfl,
        ← (hacc cl a hfa).2]
    · rw [if_neg hc] at hfc
      refine ⟨(hacc c a2 hfc).1, ?_⟩
      show a2.held = (e.transactions.set tx st1).dsum c
      rw [AMap.dsum_set st1 c hft]
      have h1 : st.disputedAmt c = 0 := by
        unfold StoredTransaction.disputedAmt
        rw [if_neg]
        rintro ⟨hcc, -⟩
        exact hc (hcl ▸ hcc)
      have h2 : st1.disputedAmt c = 0 := by
        unfold StoredTransaction.disputedAmt
        rw [if_neg]
        rintro ⟨hcc, -⟩
        exact hc (hcl ▸ hclient1 ▸ hcc)
      rw [h1, h2]
      simp only [sub_zero, add_zero]
      exact (hacc c a2 hfc).2

/-- Invariant preservation for a failed deposit/withdrawal after the lazy
account creation: the accounts map may have gained a fresh empty account. -/
theorem Engine.inv_getOrInsert {e : Engine} (hinv : e.Inv) {cl : Nat}
    {A1 : AMap Account} {a1 : Account}
    (hgoi : e.accounts.getOrInsert cl (Account.new cl) = (A1, a1)) :
    Engine.Inv { accounts := A1, transactions := e.transactions } := by
  obtain ⟨htx, hacc⟩ := hinv
  have hspec := AMap.getOrInsert_spec e.accounts cl (Account.new cl)
  rw [hgoi] at hspec
  rcases hspec with ⟨hfind, hA⟩ | ⟨hfind, hpair⟩
  · dsimp only at hA
    subst hA
    exact ⟨htx, hacc⟩
  · injection hpair with hA ha1
    subst hA
    constructor
    · intro p hp
      show (e.accounts.insert cl (Account.new cl)).contains (p.2).client = true
      exact AMap.contains_insert_of_contains _ _ _ _ (htx p hp)
    · intro c a2 hfc
      rw [AMap.find_insert] at hfc
      by_cases hc : cl = c
      · subst hc
        rw [if_pos rfl] at hfc
        injection hfc with hfc
        subst hfc
        refine ⟨⟨le_refl 0, le_refl 0⟩, ?_⟩
        show (0 : ℚ) = e.transactions.dsum cl
        rw [Engine.dsum_zero_of_unowned htx hfind]
      · rw [if_neg hc] at hfc
        exact hacc c a2 hfc

/-- Invariant preservation for a successful deposit/withdrawal: the mutated
account is written back and the transaction stored undisputed. -/
theorem Engine.inv_depwd_ok {e : Engine} (hinv : e.Inv) {cl tx : Nat}
    {ty : TransactionType} {m : ℚ} {A1 : AMap Account} {a1 b : Account}
    (hgoi : e.accounts.getOrInsert cl (Account.new cl) = (A1, a1))
    (hdup : e.transactions.contains tx = false)
    (hb : b.nonneg) (hheld : b.held = a1.held) :
    Engine.Inv { accounts := A1.set cl b,
                 transactions := e.transactions.insert tx
                   (StoredTransaction.new ty cl m) } := by
  obtain ⟨htx, hacc⟩ := hinv
  have hnodup : e.transactions.find tx = none :=
    (AMap.contains_eq_false_iff _ _).mp hdup
  have hspec := AMap.getOrInsert_spec e.accounts cl (Account.new cl)
  rw [hgoi] at hspec
  have hdsum0 : (StoredTransaction.new ty cl m).disputedAmt = fun _ => 0 := by
    funext c
    unfold StoredTransaction.disputedAmt StoredTransaction.new
    rw [if_neg]
    rintro ⟨-, hd⟩
    exact Bool.noConfusion hd
  have hfindA1 : ∀ c, A1.find c =
      if cl = c then some a1 else e.accounts.find c := by
    intro c
    rcases hspec with ⟨hfind, hA⟩ | ⟨hfind, hpair⟩
    · dsimp only at hA hfind
      subst hA
      by_cases hc : cl = c
      · subst hc; rw [if_pos rfl, hfind]
      · rw [if_neg hc]
    · injection hpair with hA ha1
      subst hA
      rw [AMap.find_insert, ha1]
  have hcontA1 : ∀ c, e.accounts.contains c = true → A1.contains c = true := by
    intro c hc
    rw [AMap.contains_eq_true_iff] at hc ⊢
    obtain ⟨v, hv⟩ := hc
    rw [hfindA1 c]
    by_cases h : cl = c
    · exact ⟨a1, by rw [if_pos h]⟩
    · exact ⟨v, by rw [if_neg h, hv]⟩
  constructor
  · intro p hp
    rcases AMap.mem_insert _ _ _ _ hp with hp1 | hp1
    · subst hp1
      show (A1.set cl b).contains (StoredTransaction.new ty cl m).client = true
      rw [AMap.contains_set]
      show A1.contains cl = true
      rw [AMap.contains_eq_true_iff, hfindA1 cl, if_pos rfl]
      exact ⟨a1, rfl⟩
    · show (A1.set cl b).contains (p.2).client = true
      rw [AMap.contains_set]
      exact hcontA1 _ (htx p hp1)
  · intro c a2 hfc
    rw [AMap.find_set] at hfc
    have hnewsum : (e.transactions.insert tx (StoredTransaction.new ty cl m)).dsum c
        = e.transactions.dsum c := by
      rw [AMap.dsum_insert c hnodup, hdsum0]
      simp
    by_cases hc : cl = c
    · subst hc
      rw [if_pos rfl, hfindA1 cl, if_pos rfl] at hfc
      simp only [Option.map] at hfc
      injection hfc with hfc
      subst hfc
      refine ⟨hb, ?_⟩
      show b.held = (e.transactions.insert tx (StoredTransaction.new ty cl m)).dsum cl
      rw [hnewsum, hheld]
      rcases hspec with ⟨hfind, hA⟩ | ⟨hfind, hpair⟩
      · exact (hacc cl a1 hfind).2
      · injection hpair with hA ha1
        rw [ha1]
        show (0 : ℚ) = e.transactions.dsum cl
        rw [Engine.dsum_zero_of_unowned htx hfind]
    · rw [if_neg hc, hfindA1 c, if_neg hc] at hfc
      refine ⟨(hacc c a2 hfc).1, ?_⟩
      show a2.held = (e.transactions.insert tx (StoredTransaction.new ty cl m)).dsum c
      rw [hnewsum]
      exact (hacc c a2 hfc).2

theorem Engine.goi_account_nonneg {e : Engine} (hinv : e.Inv) {cl : Nat}
    {A1 : AMap Account} {a1 : Account}
    (hgoi : e.accounts.getOrInsert cl (Account.new cl) = (A1, a1)) :
    a1.nonneg := by
  have hspec := AMap.getOrInsert_spec e.accounts cl (Account.new cl)
  rw [hgoi] at hspec
  rcases hspec with ⟨hfind, -⟩ | ⟨-, hpair⟩
  · exact (hinv.2 cl a1 hfind).1
  · injection hpair with h1 h2
    rw [h2]
    exact ⟨le_refl 0, le_refl 0⟩

theorem Engine.proc_deposit_inv {e : Engine} {r : TransactionRecord}
    (hinv : e.Inv) : ((e.proc_deposit r).1).Inv := by
  rcases Engine.proc_deposit_spec e r with
    ⟨-, hres⟩ | ⟨m, -, -, hres⟩ | ⟨m, A1, a1, err, -, -, hgoi, -, hres⟩ |
    ⟨m, A1, a1, b, -, hdup, hgoi, hdep, hres⟩
  · rw [hres]; exact hinv
  · rw [hres]; exact hinv
  · rw [hres]
    exact Engine.inv_getOrInsert hinv hgoi
  · rw [hres]
    have hb := Account.deposit_ok_nonneg (Engine.goi_account_nonneg hinv hgoi) hdep
    obtain ⟨hbeq, -, -⟩ := Account.deposit_ok_inv hdep
    exact Engine.inv_depwd_ok hinv hgoi hdup hb (by rw [hbeq])

theorem Engine.proc_withdrawal_inv {e : Engine} {r : TransactionRecord}
    (hinv : e.Inv) : ((e.proc_withdrawal r).1).Inv := by
  rcases Engine.proc_withdrawal_spec e r with
    ⟨-, hres⟩ | ⟨m, -, -, hres⟩ | ⟨m, A1, a1, err, -, -, hgoi, -, hres⟩ |
    ⟨m, A1, a1, b, -, hdup, hgoi, hwd, hres⟩
  · rw [hres]; exact hinv
  · rw [hres]; exact hinv
  · rw [hres]
    exact Engine.inv_getOrInsert hinv hgoi
  · rw [hres]
    have hb := Account.withdraw_ok_nonneg (Engine.goi_account_nonneg hinv hgoi) hwd
    obtain ⟨hbeq, -, -, -⟩ := Account.withdraw_ok_inv hwd
    exact Engine.inv_depwd_ok hinv hgoi hdup hb (by rw [hbeq])

theorem StoredTransaction.disputedAmt_of_not_disputed {st : StoredTransaction}
    {c : Nat} (h : st.disputed = false) : st.disputedAmt c = 0 := by
  unfold StoredTransaction.disputedAmt
  rw [if_neg]
  rintro ⟨-, hd⟩
  rw [h] at hd
  exact Bool.noConfusion hd

theorem StoredTransaction.disputedAmt_of_disputed {st : StoredTransaction}
    {c : Nat} (hc : st.client = c) (h : st.disputed = true) :
    st.disputedAmt c = st.amount := by
  unfold StoredTransaction.disputedAmt
  rw [if_pos ⟨hc, h⟩]

theorem Engine.proc_dispute_inv {e : Engine} {r : TransactionRecord}
    (hinv : e.Inv) : ((e.proc_dispute r).1).Inv := by
  rcases Engine.proc_dispute_spec e r with
    ⟨-, hres⟩ | ⟨st, -, -, hres⟩ | ⟨st, -, -, -, hres⟩ |
    ⟨st, -, -, -, -, hres⟩ | ⟨st, -, -, -, -, -, hres⟩ |
    ⟨st, a, err, -, -, -, -, -, -, hres⟩ |
    ⟨st, a, b, hft, hcl, hd, hty, hfa, hh, hres⟩
  · rw [hres]; exact hinv
  · rw [hres]; exact hinv
  · rw [hres]; exact hinv
  · rw [hres]; exact hinv
  · rw [hres]; exact hinv
  · rw [hres]; exact hinv
  · rw [hres]
    have hb := Account.hold_ok_nonneg (hinv.2 r.client a hfa).1 hh
    obtain ⟨hbeq, -, -⟩ := Account.hold_ok_inv hh
    refine Engine.inv_setset hinv hft hcl hfa hb ?_ rfl
    rw [hbeq, StoredTransaction.disputedAmt_of_not_disputed hd,
      StoredTransaction.disputedAmt_of_disputed
        (show ({ st with disputed := true } : StoredTransaction).client = r.client
          from hcl) rfl]
    dsimp only
    ring

theorem Engine.proc_resolve_inv {e : Engine} {r : TransactionRecord}
    (hinv : e.Inv) : ((e.proc_resolve r).1).Inv := by
  rcases Engine.proc_resolve_spec e r with
    ⟨-, hres⟩ | ⟨st, -, -, hres⟩ | ⟨st, -, -, -, hres⟩ |
    ⟨st, -, -, -, -, hres⟩ | ⟨st, a, err, -, -, -, -, -, hres⟩ |
    ⟨st, a, b, hft, hcl, hd, hfa, hrel, hres⟩
  · rw [hres]; exact hinv
  · rw [hres]; exact hinv
  · rw [hres]; exact hinv
  · rw [hres]; exact hinv
  · rw [hres]; exact hinv
  · rw [hres]
    have hb := Account.release_ok_nonneg (hinv.2 r.client a hfa).1 hrel
    obtain ⟨hbeq, -, -⟩ := Account.release_ok_inv hrel
    refine Engine.inv_setset hinv hft hcl hfa hb ?_ rfl
    rw [hbeq, StoredTransaction.disputedAmt_of_disputed hcl hd,
      StoredTransaction.disputedAmt_of_not_disputed
        (show ({ st with disputed := false } : StoredTransaction).disputed = false
          from rfl)]
    dsimp only
    ring

theorem Engine.proc_chargeback_inv {e : Engine} {r : TransactionRecord}
    (hinv : e.Inv) : ((e.proc_chargeback r).1).Inv := by
  rcases Engine.proc_chargeback_spec e r with
    ⟨-, hres⟩ | ⟨st, -, -, hres⟩ | ⟨st, -, -, -, hres⟩ |
    ⟨st, -, -, -, -, hres⟩ | ⟨st, a, err, -, -, -, -, -, hres⟩ |
    ⟨st, a, b, hft, hcl, hd, hfa, hcb, hres⟩
  · rw [hres]; exact hinv
  · rw [hres]; exact hinv
  · rw [hres]; exact hinv
  · rw [hres]; exact hinv
  · rw [hres]; exact hinv
  · rw [hres]
    have hb := Account.chargeback_ok_nonneg (hinv.2 r.client a hfa).1 hcb
    obtain ⟨hbeq, -, -⟩ := Account.chargeback_ok_inv hcb
    refine Engine.inv_setset hinv hft hcl hfa hb ?_ rfl
    rw [hbeq, StoredTransaction.disputedAmt_of_disputed hcl hd,
      StoredTransaction.disputedAmt_of_not_disputed
        (show ({ st with disputed := false } : StoredTransaction).disputed = false
          from rfl)]
    dsimp only
    ring

theorem Engine.process_inv {e : Engine} {r : TransactionRecord}
    (hinv : e.Inv) : ((e.process r).1).Inv := by
  unfold Engine.process
  cases hty : r.tx_type
  · exact Engine.proc_deposit_inv hinv
  · exact Engine.proc_withdrawal_inv hinv
  · exact Engine.proc_dispute_inv hinv
  · exact Engine.proc_resolve_inv hinv
  · exact Engine.proc_chargeback_inv hinv

theorem Engine.new_inv : Engine.new.Inv := by
  constructor
  · intro p hp
    exact absurd hp (List.not_mem_nil p)
  · intro c a hfc
    exact absurd hfc (by simp [Engine.new, AMap.empty, AMap.find])

theorem Engine.reachable_inv {e : Engine} (h : Reachable e) : e.Inv := by
  induction h with
  | base => exact Engine.new_inv
  | step r h ih => exact Engine.process_inv ih

theorem AMap.goi_find_ne {α : Type} {m : AMap α} {k : Nat} {v : α}
    {A1 : AMap α} {w : α} (hgoi : m.getOrInsert k v = (A1, w)) {c : Nat}
    (hne : k ≠ c) : A1.find c = m.find c := by
  have hspec := AMap.getOrInsert_spec m k v
  rw [hgoi] at hspec
  rcases hspec with ⟨-, hA⟩ | ⟨-, hpair⟩
  · dsimp only at hA; rw [hA]
  · injection hpair with hA hw
    rw [hA, AMap.find_insert, if_neg hne]

theorem AMap.goi_of_find_some {α : Type} {m : AMap α} {k : Nat} {v : α}
    {A1 : AMap α} {w : α} (hgoi : m.getOrInsert k v = (A1, w)) {a : α}
    (hfc : m.find k = some a) : A1 = m ∧ w = a := by
  have hspec := AMap.getOrInsert_spec m k v
  rw [hgoi] at hspec
  rcases hspec with ⟨hfind, hA⟩ | ⟨hfind, -⟩
  · dsimp only at hfind hA
    rw [hfc] at hfind
    injection hfind with hfind
    exact ⟨hA, hfind.symm⟩
  · rw [hfind] at hfc
    exact Option.noConfusion hfc

theorem AMap.goi_of_find_none {α : Type} {m : AMap α} {k : Nat} {v : α}
    {A1 : AMap α} {w : α} (hgoi : m.getOrInsert k v = (A1, w))
    (hfc : m.find k = none) : A1 = m.insert k v ∧ w = v := by
  have hspec := AMap.getOrInsert_spec m k v
  rw [hgoi] at hspec
  rcases hspec with ⟨hfind, -⟩ | ⟨-, hpair⟩
  · dsimp only at hfind
    rw [hfc] at hfind
    exact Option.noConfusion hfind
  · injection hpair with hA hw
    exact ⟨hA, hw⟩

/-- No process call ever clears a locked flag: helper for the lock
monotonicity claim, valid for all engine states. -/
theorem Engine.process_locked_mono {e : Engine} (r : TransactionRecord)
    {c : Nat} {a : Account} (hfc : e.accounts.find c = some a)
    (hl : a.locked = true) :
    ∃ a1, (e.process r).1.accounts.find c = some a1 ∧ a1.locked = true := by
  unfold Engine.process
  cases hty : r.tx_type
  case dispute =>
    rcases Engine.proc_dispute_spec e r with
      ⟨-, hres⟩ | ⟨st, -, -, hres⟩ | ⟨st, -, -, -, hres⟩ |
      ⟨st, -, -, -, -, hres⟩ | ⟨st, -, -, -, -, -, hres⟩ |
      ⟨st, a2, err, -, -, -, -, -, -, hres⟩ |
      ⟨st, a2, b, hft, hcl, hd, htyd, hfa, hh, hres⟩ <;> rw [hres]
    iterate 6 exact ⟨a, hfc, hl⟩
    by_cases hcc : r.client = c
    · subst hcc
      rw [hfc] at hfa
      injection hfa with hfa
      obtain ⟨hbeq, -, -⟩ := Account.hold_ok_inv hh
      refine ⟨b, ?_, ?_⟩
      · rw [AMap.find_set, if_pos rfl, hfc]
        rfl
      · rw [hbeq, ← hfa]
        exact hl
    · refine ⟨a, ?_, hl⟩
      rw [AMap.find_set, if_neg hcc]
      exact hfc
  case resolve =>
    rcases Engine.proc_resolve_spec e r with
      ⟨-, hres⟩ | ⟨st, -, -, hres⟩ | ⟨st, -, -, -, hres⟩ |
      ⟨st, -, -, -, -, hres⟩ | ⟨st, a2, err, -, -, -, -, -, hres⟩ |
      ⟨st, a2, b, hft, hcl, hd, hfa, hrel, hres⟩ <;> rw [hres]
    iterate 5 exact ⟨a, hfc, hl⟩
    by_cases hcc : r.client = c
    · subst hcc
      rw [hfc] at hfa
      injection hfa with hfa
      obtain ⟨hbeq, -, -⟩ := Account.release_ok_inv hrel
      refine ⟨b, ?_, ?_⟩
      · rw [AMap.find_set, if_pos rfl, hfc]
        rfl
      · rw [hbeq, ← hfa]
        exact hl
    · refine ⟨a, ?_, hl⟩
      rw [AMap.find_set, if_neg hcc]
      exact hfc
  case chargeback =>
    rcases Engine.proc_chargeback_spec e r with
      ⟨-, hres⟩ | ⟨st, -, -, hres⟩ | ⟨st, -, -, -, hres⟩ |
      ⟨st, -, -, -, -, hres⟩ | ⟨st, a2, err, -, -, -, -, -, hres⟩ |
      ⟨st, a2, b, hft, hcl, hd, hfa, hcb, hres⟩ <;> rw [hres]
    iterate 5 exact ⟨a, hfc, hl⟩
    obtain ⟨hbeq, -, -⟩ := Account.chargeback_ok_inv hcb
    by_cases hcc : r.client = c
    · subst hcc
      refine ⟨b, ?_, ?_⟩
      · rw [AMap.find_set, if_pos rfl, hfc]
        rfl
      · rw [hbeq]
    · refine ⟨a, ?_, hl⟩
      rw [AMap.find_set, if_neg hcc]
      exact hfc
  case deposit =>
    rcases Engine.proc_deposit_spec e r with
      ⟨-, hres⟩ | ⟨m, -, -, hres⟩ | ⟨m, A1, a1, err, -, -, hgoi, -, hres⟩ |
      ⟨m, A1, a1, b, -, -, hgoi, hdep, hres⟩ <;> rw [hres]
    iterate 2 exact ⟨a, hfc, hl⟩
    · by_cases hcc : r.client = c
      · subst hcc
        obtain ⟨hA, -⟩ := AMap.goi_of_find_some hgoi hfc
        rw [hA]
        exact ⟨a, hfc, hl⟩
      · refine ⟨a, ?_, hl⟩
        rw [AMap.goi_find_ne hgoi hcc]
        exact hfc
    · by_cases hcc : r.client = c
      · subst hcc
        obtain ⟨-, ha1⟩ := AMap.goi_of_find_some hgoi hfc
        obtain ⟨-, hlock, -⟩ := Account.deposit_ok_inv hdep
        rw [ha1, hl] at hlock
        exact Bool.noConfusion hlock
      · refine ⟨a, ?_, hl⟩
        rw [AMap.find_set, if_neg hcc, AMap.goi_find_ne hgoi hcc]
        exact hfc
  case withdrawal =>
    rcases Engine.proc_withdrawal_spec e r with
      ⟨-, hres⟩ | ⟨m, -, -, hres⟩ | ⟨m, A1, a1, err, -, -, hgoi, -, hres⟩ |
      ⟨m, A1, a1, b, -, -, hgoi, hwd, hres⟩ <;> rw [hres]
    iterate 2 exact ⟨a, hfc, hl⟩
    · by_cases hcc : r.client = c
      · subst hcc
        obtain ⟨hA, -⟩ := AMap.goi_of_find_some hgoi hfc
        rw [hA]
        exact ⟨a, hfc, hl⟩
      · refine ⟨a, ?_, hl⟩
        rw [AMap.goi_find_ne hgoi hcc]
        exact hfc
    · by_cases hcc : r.client = c
      · subst hcc
        obtain ⟨-, ha1⟩ := AMap.goi_of_find_some hgoi hfc
        obtain ⟨-, hlock, -, -⟩ := Account.withdraw_ok_inv hwd
        rw [ha1, hl] at hlock
        exact Bool.noConfusion hlock
      · refine ⟨a, ?_, hl⟩
        rw [AMap.find_set, if_neg hcc, AMap.goi_find_ne hgoi hcc]
        exact hfc

/-- A transaction id once stored stays stored across any process call. -/
theorem Engine.tx_contains_mono {e : Engine} (r : TransactionRecord) {t : Nat}
    (h : e.transactions.contains t = true) :
    ((e.process r).1).transactions.contains t = true := by
  unfold Engine.process
  cases hty : r.tx_type
  case deposit =>
    rcases Engine.proc_deposit_spec e r with
      ⟨-, hres⟩ | ⟨m, -, -, hres⟩ | ⟨m, A1, a1, err, -, -, -, -, hres⟩ |
      ⟨m, A1, a1, b, -, -, -, -, hres⟩ <;> rw [hres]
    iterate 3 exact h
    exact AMap.contains_insert_of_contains _ _ _ _ h
  case withdrawal =>
    rcases Engine.proc_withdrawal_spec e r with
      ⟨-, hres⟩ | ⟨m, -, -, hres⟩ | ⟨m, A1, a1, err, -, -, -, -, hres⟩ |
      ⟨m, A1, a1, b, -, -, -, -, hres⟩ <;> rw [hres]
    iterate 3 exact h
    exact AMap.contains_insert_of_contains _ _ _ _ h
  case dispute =>
    rcases Engine.proc_dispute_spec e r with
      ⟨-, hres⟩ | ⟨st, -, -, hres⟩ | ⟨st, -, -, -, hres⟩ |
      ⟨st, -, -, -, -, hres⟩ | ⟨st, -, -, -, -, -, hres⟩ |
      ⟨st, a2, err, -, -, -, -, -, -, hres⟩ |
      ⟨st, a2, b, -, -, -, -, -, -, hres⟩ <;> rw [hres]
    iterate 6 exact h
    rw [AMap.contains_set]
    exact h
  case resolve =>
    rcases Engine.proc_resolve_spec e r with
      ⟨-, hres⟩ | ⟨st, -, -, hres⟩ | ⟨st, -, -, -, hres⟩ |
      ⟨st, -, -, -, -, hres⟩ | ⟨st, a2, err, -, -, -, -, -, hres⟩ |
      ⟨st, a2, b, -, -, -, -, -, hres⟩ <;> rw [hres]
    iterate 5 exact h
    rw [AMap.contains_set]
    exact h
  case chargeback =>
    rcases Engine.proc_chargeback_spec e r with
      ⟨-, hres⟩ | ⟨st, -, -, hres⟩ | ⟨st, -, -, -, hres⟩ |
      ⟨st, -, -, -, -, hres⟩ | ⟨st, a2, err, -, -, -, -, -, hres⟩ |
      ⟨st, a2, b, -, -, -, -, -, hres⟩ <;> rw [hres]
    iterate 5 exact h
    rw [AMap.contains_set]
    exact h

theorem Engine.processAll_tx_contains_mono {t : Nat}
    (rs : List TransactionRecord) : ∀ e : Engine,
    e.transactions.contains t = true →
    (e.processAll rs).transactions.contains t = true := by
  induction rs with
  | nil => intro e h; exact h
  | cons r rs ih =>
    intro e h
    exact ih _ (Engine.tx_contains_mono r h)

/-- A successful deposit or withdrawal stores its transaction id. -/
theorem Engine.depwd_ok_stores {e : Engine} {r : TransactionRecord}
    (hty : r.tx_type = TransactionType.deposit ∨
      r.tx_type = TransactionType.withdrawal)
    (hok : (e.process r).2 = none) :
    ((e.process r).1).transactions.contains r.tx = true := by
  unfold Engine.process at hok ⊢
  rcases hty with hty | hty <;> rw [hty] at hok ⊢ <;> dsimp only at hok ⊢
  · rcases Engine.proc_deposit_spec e r with
      ⟨-, hres⟩ | ⟨m, -, -, hres⟩ | ⟨m, A1, a1, err, -, -, -, -, hres⟩ |
      ⟨m, A1, a1, b, -, -, -, -, hres⟩ <;> rw [hres] at hok ⊢
    iterate 3 exact absurd hok (by simp)
    exact AMap.contains_insert_self _ _ _
  · rcases Engine.proc_withdrawal_spec e r with
      ⟨-, hres⟩ | ⟨m, -, -, hres⟩ | ⟨m, A1, a1, err, -, -, -, -, hres⟩ |
      ⟨m, A1, a1, b, -, -, -, -, hres⟩ <;> rw [hres] at hok ⊢
    iterate 3 exact absurd hok (by simp)
    exact AMap.contains_insert_self _ _ _

/-- A deposit/withdrawal with an amount whose id is already stored fails
with DuplicateTransaction. -/
theorem Engine.depwd_dup_fails {e : Engine} {r : TransactionRecord} {m : ℚ}
    (hty : r.tx_type = TransactionType.deposit ∨
      r.tx_type = TransactionType.withdrawal)
    (hamt : r.amount = some m)
    (hdup : e.transactions.contains r.tx = true) :
    (e.process r).2 = some (EngineError.duplicateTransaction r.tx) := by
  unfold Engine.process
  rcases hty with hty | hty <;> rw [hty] <;> dsimp only
  · rcases Engine.proc_deposit_spec e r with
      ⟨hnone, -⟩ | ⟨m2, -, -, hres⟩ | ⟨m2, A1, a1, err, -, hd2, -, -, hres⟩ |
      ⟨m2, A1, a1, b, -, hd2, -, -, hres⟩
    · rw [hnone] at hamt
      exact Option.noConfusion hamt
    · rw [hres]
    · rw [hdup] at hd2
      exact Bool.noConfusion hd2
    · rw [hdup] at hd2
      exact Bool.noConfusion hd2
  · rcases Engine.proc_withdrawal_spec e r with
      ⟨hnone, -⟩ | ⟨m2, -, -, hres⟩ | ⟨m2, A1, a1, err, -, hd2, -, -, hres⟩ |
      ⟨m2, A1, a1, b, -, hd2, -, -, hres⟩
    · rw [hnone] at hamt
      exact Option.noConfusion hamt
    · rw [hres]
    · rw [hdup] at hd2
      exact Bool.noConfusion hd2
    · rw [hdup] at hd2
      exact Bool.noConfusion hd2

/-- Claim C1: every account in every engine state reachable from a new
Engine satisfies available >= 0 and held >= 0; equivalently each of the
five Account operations, applied to an account satisfying the invariant,
either fails (leaving the account unchanged, as the operations are pure
here) or returns an account satisfying the invariant again. -/
theorem claim_C1_nonneg_invariant :
    (∀ e : Engine, Reachable e → ∀ (c : Nat) (a : Account),
      e.accounts.find c = some a → 0 ≤ a.available ∧ 0 ≤ a.held) ∧
    (∀ (a b : Account) (m : ℚ), 0 ≤ a.available → 0 ≤ a.held →
      (a.deposit m = Except.ok b ∨ a.withdraw m = Except.ok b ∨
        a.hold m = Except.ok b ∨ a.release m = Except.ok b ∨
        a.chargeback m = Except.ok b) →
      0 ≤ b.available ∧ 0 ≤ b.held) := by
  constructor
  · intro e he c a hfc
    exact ((Engine.reachable_inv he).2 c a hfc).1
  · intro a b m h1 h2 hop
    rcases hop with h | h | h | h | h
    · exact Account.deposit_ok_nonneg ⟨h1, h2⟩ h
    · exact Account.withdraw_ok_nonneg ⟨h1, h2⟩ h
    · exact Account.hold_ok_nonneg ⟨h1, h2⟩ h
    · exact Account.release_ok_nonneg ⟨h1, h2⟩ h
    · exact Account.chargeback_ok_nonneg ⟨h1, h2⟩ h

/-- Witness for C1 at the state reached by one deposit of 100. -/
theorem claim_C1_nonneg_invariant_witness :
    0 ≤ (⟨1, 100, 0, false⟩ : Account).available ∧
    0 ≤ (⟨1, 100, 0, false⟩ : Account).held :=
  claim_C1_nonneg_invariant.1 _
    (Reachable.step (depositRec 1 1 100) Reachable.base) 1
    ⟨1, 100, 0, false⟩ (by norm_num [Engine.process, Engine.proc_deposit, Engine.proc_withdrawal, Engine.proc_dispute, Engine.proc_resolve, Engine.proc_chargeback, Engine.new, Engine.disputedSum, Engine.processAll, AMap.empty, AMap.find, AMap.contains, AMap.insert, AMap.eraseKey, AMap.set, AMap.getOrInsert, AMap.dsum, Account.new, Account.deposit, Account.withdraw, Account.hold, Account.release, Account.chargeback, StoredTransaction.new, StoredTransaction.disputedAmt, depositRec, withdrawalRec, disputeRec, resolveRec, chargebackRec])

/-- Claim C2: starting from Account::new, after any finite sequence of
deposit, withdraw, hold and release calls (no chargeback), available +
held equals the sum of the amounts of the deposit calls that returned Ok
minus the sum of the amounts of the withdraw calls that returned Ok. -/
theorem claim_C2_conservation : ∀ (client : Nat) (ops : List AccountOp),
    ((Account.new client).runOps ops).available +
      ((Account.new client).runOps ops).held =
      (Account.new client).netOps ops := by
  intro c ops
  have h := Account.runOps_total ops (Account.new c)
  simp [Account.total, Account.new] at h
  exact h

/-- Claim C5: locked gates exactly deposit and withdraw (which fail with
AccountLocked for any amount on a locked account), while hold, release
and chargeback ignore the flag: hold succeeds exactly when
0 <= amount <= available and moves the amount from available to held,
release succeeds exactly when 0 <= amount <= held and moves it back, and
chargeback succeeds exactly when 0 <= amount <= held, subtracts it from
held and sets locked. -/
theorem claim_C5_locked_gating : ∀ (a : Account) (m : ℚ),
    (a.locked = true →
      a.deposit m = Except.error AccountError.accountLocked ∧
      a.withdraw m = Except.error AccountError.accountLocked) ∧
    (0 ≤ m ∧ m ≤ a.available →
      a.hold m = Except.ok
        { a with available := a.available - m, held := a.held + m }) ∧
    (¬(0 ≤ m ∧ m ≤ a.available) → ∀ b, a.hold m ≠ Except.ok b) ∧
    (0 ≤ m ∧ m ≤ a.held →
      a.release m = Except.ok
        { a with held := a.held - m, available := a.available + m }) ∧
    (¬(0 ≤ m ∧ m ≤ a.held) → ∀ b, a.release m ≠ Except.ok b) ∧
    (0 ≤ m ∧ m ≤ a.held →
      a.chargeback m = Except.ok
        { a with held := a.held - m, locked := true }) ∧
    (¬(0 ≤ m ∧ m ≤ a.held) → ∀ b, a.chargeback m ≠ Except.ok b) := by
  intro a m
  refine ⟨fun hl => ⟨Account.deposit_locked hl, Account.withdraw_locked hl⟩,
    fun h => Account.hold_ok_eq h.1 h.2,
    fun hn b hb => hn (Account.hold_ok_iff.mp ⟨b, hb⟩),
    fun h => Account.release_ok_eq h.1 h.2,
    fun hn b hb => hn (Account.release_ok_iff.mp ⟨b, hb⟩),
    fun h => Account.chargeback_ok_eq h.1 h.2,
    fun hn b hb => hn (Account.chargeback_ok_iff.mp ⟨b, hb⟩)⟩

/-- Witness for C5 on a locked account with available 5, held 3 and
amount 2: deposit is rejected with AccountLocked while hold succeeds. -/
theorem claim_C5_locked_gating_witness :
    Account.deposit ⟨1, 5, 3, true⟩ 2 = Except.error AccountError.accountLocked ∧
    Account.hold ⟨1, 5, 3, true⟩ 2 = Except.ok ⟨1, (5 : ℚ) - 2, (3 : ℚ) + 2, true⟩ :=
  ⟨((claim_C5_locked_gating ⟨1, 5, 3, true⟩ 2).1 rfl).1,
    (claim_C5_locked_gating ⟨1, 5, 3, true⟩ 2).2.1 (by decide)⟩

/-- Claim C9: in every reachable engine state, each account's held amount
equals the sum of the amounts of the stored transactions owned by that
client whose disputed flag is currently true. -/
theorem claim_C9_held_eq_disputed_sum : ∀ e : Engine, Reachable e →
    ∀ (c : Nat) (a : Account), e.accounts.find c = some a →
    a.held = e.disputedSum c :=
  fun e he c a hfc => ((Engine.reachable_inv he).2 c a hfc).2

/-- Witness for C9 after a deposit of 100 and a successful dispute:
held = 100 = the disputed sum. -/
theorem claim_C9_held_eq_disputed_sum_witness :
    (⟨1, 0, 100, false⟩ : Account).held =
      ((((Engine.new.process (depositRec 1 1 100)).1).process
        (disputeRec 1 1)).1).disputedSum 1 :=
  claim_C9_held_eq_disputed_sum _
    (Reachable.step (disputeRec 1 1)
      (Reachable.step (depositRec 1 1 100) Reachable.base)) 1
    ⟨1, 0, 100, false⟩ (by norm_num [Engine.process, Engine.proc_deposit, Engine.proc_withdrawal, Engine.proc_dispute, Engine.proc_resolve, Engine.proc_chargeback, Engine.new, Engine.disputedSum, Engine.processAll, AMap.empty, AMap.find, AMap.contains, AMap.insert, AMap.eraseKey, AMap.set, AMap.getOrInsert, AMap.dsum, Account.new, Account.deposit, Account.withdraw, Account.hold, Account.release, Account.chargeback, StoredTransaction.new, StoredTransaction.disputedAmt, depositRec, withdrawalRec, disputeRec, resolveRec, chargebackRec])

/-- Claim C10: in every reachable state every stored transaction's owner
client has an account, and process never returns ClientNotFound. -/
theorem claim_C10_client_not_found_unreachable : ∀ e : Engine, Reachable e →
    (∀ (t : Nat) (st : StoredTransaction), e.transactions.find t = some st →
      e.accounts.contains st.client = true) ∧
    (∀ (r : TransactionRecord) (c : Nat),
      (e.process r).2 ≠ some (EngineError.clientNotFound c)) := by
  intro e he
  have hinv := Engine.reachable_inv he
  have howner : ∀ (t : Nat) (st : StoredTransaction),
      e.transactions.find t = some st →
      e.accounts.contains st.client = true :=
    fun t st hft => hinv.1 (t, st) (AMap.find_mem _ _ _ hft)
  refine ⟨howner, ?_⟩
  intro r c hcon
  unfold Engine.process at hcon
  revert hcon
  cases hty : r.tx_type <;> intro hcon
  case deposit =>
    rcases Engine.proc_deposit_spec e r with
      ⟨-, hres⟩ | ⟨m, -, -, hres⟩ | ⟨m, A1, a1, err, -, -, -, -, hres⟩ |
      ⟨m, A1, a1, b, -, -, -, -, hres⟩ <;> rw [hres] at hcon <;> simp at hcon
  case withdrawal =>
    rcases Engine.proc_withdrawal_spec e r with
      ⟨-, hres⟩ | ⟨m, -, -, hres⟩ | ⟨m, A1, a1, err, -, -, -, -, hres⟩ |
      ⟨m, A1, a1, b, -, -, -, -, hres⟩ <;> rw [hres] at hcon <;> simp at hcon
  case dispute =>
    rcases Engine.proc_dispute_spec e r with
      ⟨-, hres⟩ | ⟨st, -, -, hres⟩ | ⟨st, -, -, -, hres⟩ |
      ⟨st, -, -, -, -, hres⟩ | ⟨st, hft, hcl, -, -, hfa, hres⟩ |
      ⟨st, a2, err, -, -, -, -, -, -, hres⟩ |
      ⟨st, a2, b, -, -, -, -, -, -, hres⟩ <;> rw [hres] at hcon <;>
      try simp at hcon
    have h1 := howner r.tx st hft
    rw [hcl] at h1
    obtain ⟨v, hv⟩ := (AMap.contains_eq_true_iff _ _).mp h1
    rw [hv] at hfa
    exact Option.noConfusion hfa
  case resolve =>
    rcases Engine.proc_resolve_spec e r with
      ⟨-, hres⟩ | ⟨st, -, -, hres⟩ | ⟨st, -, -, -, hres⟩ |
      ⟨st, hft, hcl, -, hfa, hres⟩ | ⟨st, a2, err, -, -, -, -, -, hres⟩ |
      ⟨st, a2, b, -, -, -, -, -, hres⟩ <;> rw [hres] at hcon <;>
      try simp at hcon
    have h1 := howner r.tx st hft
    rw [hcl] at h1
    obtain ⟨v, hv⟩ := (AMap.contains_eq_true_iff _ _).mp h1
    rw [hv] at hfa
    exact Option.noConfusion hfa
  case chargeback =>
    rcases Engine.proc_chargeback_spec e r with
      ⟨-, hres⟩ | ⟨st, -, -, hres⟩ | ⟨st, -, -, -, hres⟩ |
      ⟨st, hft, hcl, -, hfa, hres⟩ | ⟨st, a2, err, -, -, -, -, -, hres⟩ |
      ⟨st, a2, b, -, -, -, -, -, hres⟩ <;> rw [hres] at hcon <;>
      try simp at hcon
    have h1 := howner r.tx st hft
    rw [hcl] at h1
    obtain ⟨v, hv⟩ := (AMap.contains_eq_true_iff _ _).mp h1
    rw [hv] at hfa
    exact Option.noConfusion hfa

/-- Witness for C10 at the initial state and a dispute record. -/
theorem claim_C10_client_not_found_unreachable_witness :
    (Engine.new.process (disputeRec 1 1)).2 ≠
      some (EngineError.clientNotFound 1) :=
  (claim_C10_client_not_found_unreachable Engine.new Reachable.base).2
    (disputeRec 1 1) 1

/-- Claim C3 as stated is refuted by the counterexample below: a deposit
of a negative amount into a new engine returns an error, yet the accounts
map has gained a fresh account for the client, so the engine state is not
exactly the same as before the call. -/
theorem claim_C3_counterexample :
    (Engine.new.process (depositRec 1 1 (-1))).2 =
      some (EngineError.accountError 1 1 AccountError.negativeAmount) ∧
    (Engine.new.process (depositRec 1 1 (-1))).1 ≠ Engine.new := by
  constructor
  · norm_num [Engine.process, Engine.proc_deposit, Engine.proc_withdrawal, Engine.proc_dispute, Engine.proc_resolve, Engine.proc_chargeback, Engine.new, Engine.disputedSum, Engine.processAll, AMap.empty, AMap.find, AMap.contains, AMap.insert, AMap.eraseKey, AMap.set, AMap.getOrInsert, AMap.dsum, Account.new, Account.deposit, Account.withdraw, Account.hold, Account.release, Account.chargeback, StoredTransaction.new, StoredTransaction.disputedAmt, depositRec, withdrawalRec, disputeRec, resolveRec, chargebackRec]
  · intro hcon
    have h2 : (Engine.new.process (depositRec 1 1 (-1))).1.accounts =
        [(1, Account.new 1)] := by
      norm_num [Engine.process, Engine.proc_deposit, Engine.proc_withdrawal, Engine.proc_dispute, Engine.proc_resolve, Engine.proc_chargeback, Engine.new, Engine.disputedSum, Engine.processAll, AMap.empty, AMap.find, AMap.contains, AMap.insert, AMap.eraseKey, AMap.set, AMap.getOrInsert, AMap.dsum, Account.new, Account.deposit, Account.withdraw, Account.hold, Account.release, Account.chargeback, StoredTransaction.new, StoredTransaction.disputedAmt, depositRec, withdrawalRec, disputeRec, resolveRec, chargebackRec]
    rw [hcon] at h2
    exact List.noConfusion h2

/-- Claim C3 amended: when process returns an error, the transactions map
and every stored balance are unchanged, and the accounts map is unchanged
except that a failing deposit or withdrawal may have inserted a fresh
empty account (the lazy creation the spec itself requires) for the
record's client. -/
theorem claim_C3_error_state (e : Engine) (r : TransactionRecord)
    (err : EngineError) (h : (e.process r).2 = some err) :
    (e.process r).1.transactions = e.transactions ∧
    ((e.process r).1.accounts = e.accounts ∨
      ((r.tx_type = TransactionType.deposit ∨
        r.tx_type = TransactionType.withdrawal) ∧
        e.accounts.contains r.client = false ∧
        (e.process r).1.accounts =
          e.accounts.insert r.client (Account.new r.client))) := by
  unfold Engine.process at h ⊢
  cases hty : r.tx_type <;> rw [hty] at h <;> dsimp only at h ⊢
  case deposit =>
    rcases Engine.proc_deposit_spec e r with
      ⟨-, hres⟩ | ⟨m, -, -, hres⟩ | ⟨m, A1, a1, err2, -, -, hgoi, -, hres⟩ |
      ⟨m, A1, a1, b, -, -, -, -, hres⟩ <;> rw [hres] at h ⊢
    · exact ⟨rfl, Or.inl rfl⟩
    · exact ⟨rfl, Or.inl rfl⟩
    · refine ⟨rfl, ?_⟩
      rcases AMap.getOrInsert_spec e.accounts r.client (Account.new r.client)
        with ⟨hfind, hA⟩ | ⟨hfind, hpair⟩
      · rw [hgoi] at hA
        exact Or.inl hA
      · rw [hgoi] at hpair
        injection hpair with hA ha1
        exact Or.inr ⟨Or.inl rfl, (AMap.contains_eq_false_iff _ _).mpr hfind, hA⟩
    · exact Option.noConfusion h
  case withdrawal =>
    rcases Engine.proc_withdrawal_spec e r with
      ⟨-, hres⟩ | ⟨m, -, -, hres⟩ | ⟨m, A1, a1, err2, -, -, hgoi, -, hres⟩ |
      ⟨m, A1, a1, b, -, -, -, -, hres⟩ <;> rw [hres] at h ⊢
    · exact ⟨rfl, Or.inl rfl⟩
    · exact ⟨rfl, Or.inl rfl⟩
    · refine ⟨rfl, ?_⟩
      rcases AMap.getOrInsert_spec e.accounts r.client (Account.new r.client)
        with ⟨hfind, hA⟩ | ⟨hfind, hpair⟩
      · rw [hgoi] at hA
        exact Or.inl hA
      · rw [hgoi] at hpair
        injection hpair with hA ha1
        exact Or.inr ⟨Or.inr rfl, (AMap.contains_eq_false_iff _ _).mpr hfind, hA⟩
    · exact Option.noConfusion h
  case dispute =>
    rcases Engine.proc_dispute_spec e r with
      ⟨-, hres⟩ | ⟨st, -, -, hres⟩ | ⟨st, -, -, -, hres⟩ |
      ⟨st, -, -, -, -, hres⟩ | ⟨st, -, -, -, -, -, hres⟩ |
      ⟨st, a2, err2, -, -, -, -, -, -, hres⟩ |
      ⟨st, a2, b, -, -, -, -, -, -, hres⟩ <;> rw [hres] at h ⊢
    iterate 6 exact ⟨rfl, Or.inl rfl⟩
    exact Option.noConfusion h
  case resolve =>
    rcases Engine.proc_resolve_spec e r with
      ⟨-, hres⟩ | ⟨st, -, -, hres⟩ | ⟨st, -, -, -, hres⟩ |
      ⟨st, -, -, -, -, hres⟩ | ⟨st, a2, err2, -, -, -, -, -, hres⟩ |
      ⟨st, a2, b, -, -, -, -, -, hres⟩ <;> rw [hres] at h ⊢
    iterate 5 exact ⟨rfl, Or.inl rfl⟩
    exact Option.noConfusion h
  case chargeback =>
    rcases Engine.proc_chargeback_spec e r with
      ⟨-, hres⟩ | ⟨st, -, -, hres⟩ | ⟨st, -, -, -, hres⟩ |
      ⟨st, -, -, -, -, hres⟩ | ⟨st, a2, err2, -, -, -, -, -, hres⟩ |
      ⟨st, a2, b, -, -, -, -, -, hres⟩ <;> rw [hres] at h ⊢
    iterate 5 exact ⟨rfl, Or.inl rfl⟩
    exact Option.noConfusion h

/-- Witness for the amended C3 at a failing (negative) deposit: the
transactions map is unchanged and the fresh account branch holds. -/
theorem claim_C3_error_state_witness :
    (Engine.new.process (depositRec 1 1 (-1))).1.transactions =
      Engine.new.transactions ∧
    ((Engine.new.process (depositRec 1 1 (-1))).1.accounts =
        Engine.new.accounts ∨
      (((depositRec 1 1 (-1)).tx_type = TransactionType.deposit ∨
        (depositRec 1 1 (-1)).tx_type = TransactionType.withdrawal) ∧
        Engine.new.accounts.contains (depositRec 1 1 (-1)).client = false ∧
        (Engine.new.process (depositRec 1 1 (-1))).1.accounts =
          Engine.new.accounts.insert (depositRec 1 1 (-1)).client
            (Account.new (depositRec 1 1 (-1)).client))) :=
  claim_C3_error_state Engine.new (depositRec 1 1 (-1))
    (EngineError.accountError 1 1 AccountError.negativeAmount)
    (by norm_num [Engine.process, Engine.proc_deposit, Engine.proc_withdrawal, Engine.proc_dispute, Engine.proc_resolve, Engine.proc_chargeback, Engine.new, Engine.disputedSum, Engine.processAll, AMap.empty, AMap.find, AMap.contains, AMap.insert, AMap.eraseKey, AMap.set, AMap.getOrInsert, AMap.dsum, Account.new, Account.deposit, Account.withdraw, Account.hold, Account.release, Account.chargeback, StoredTransaction.new, StoredTransaction.disputedAmt, depositRec, withdrawalRec, disputeRec, resolveRec, chargebackRec])

/-- Claim C4: in every reachable state, an account whose locked flag is
true still has locked = true after any further record is processed; no
operation resets the flag. -/
theorem claim_C4_lock_monotone : ∀ e : Engine, Reachable e →
    ∀ (r : TransactionRecord) (c : Nat) (a : Account),
    e.accounts.find c = some a → a.locked = true →
    ∃ a1, (e.process r).1.accounts.find c = some a1 ∧ a1.locked = true :=
  fun _ _ r _ _ hfc hl => Engine.process_locked_mono r hfc hl

/-- Witness for C4: after deposit, dispute and chargeback the account is
locked, and a further deposit attempt leaves it locked. -/
theorem claim_C4_lock_monotone_witness :
    ∃ a1, (((((Engine.new.process (depositRec 1 1 100)).1).process
        (disputeRec 1 1)).1.process (chargebackRec 1 1)).1.process
        (depositRec 1 2 5)).1.accounts.find 1 = some a1 ∧
      a1.locked = true :=
  claim_C4_lock_monotone _
    (Reachable.step (chargebackRec 1 1)
      (Reachable.step (disputeRec 1 1)
        (Reachable.step (depositRec 1 1 100) Reachable.base)))
    (depositRec 1 2 5) 1 ⟨1, 0, 0, true⟩
    (by norm_num [Engine.process, Engine.proc_deposit, Engine.proc_withdrawal, Engine.proc_dispute, Engine.proc_resolve, Engine.proc_chargeback, Engine.new, Engine.disputedSum, Engine.processAll, AMap.empty, AMap.find, AMap.contains, AMap.insert, AMap.eraseKey, AMap.set, AMap.getOrInsert, AMap.dsum, Account.new, Account.deposit, Account.withdraw, Account.hold, Account.release, Account.chargeback, StoredTransaction.new, StoredTransaction.disputedAmt, depositRec, withdrawalRec, disputeRec, resolveRec, chargebackRec]) rfl

/-- Claim C6 as stated is refuted: two withdrawal records sharing tx id 1,
each failing with InsufficientFunds, give zero accepted records and no
DuplicateTransaction error. -/
theorem claim_C6_counterexample :
    (Engine.new.process (withdrawalRec 1 1 50)).2 =
      some (EngineError.accountError 1 1 (AccountError.insufficientFunds 50 0)) ∧
    ((Engine.new.process (withdrawalRec 1 1 50)).1.process
        (withdrawalRec 2 1 50)).2 =
      some (EngineError.accountError 1 2 (AccountError.insufficientFunds 50 0)) := by
  constructor <;> norm_num [Engine.process, Engine.proc_deposit, Engine.proc_withdrawal, Engine.proc_dispute, Engine.proc_resolve, Engine.proc_chargeback, Engine.new, Engine.disputedSum, Engine.processAll, AMap.empty, AMap.find, AMap.contains, AMap.insert, AMap.eraseKey, AMap.set, AMap.getOrInsert, AMap.dsum, Account.new, Account.deposit, Account.withdraw, Account.hold, Account.release, Account.chargeback, StoredTransaction.new, StoredTransaction.disputedAmt, depositRec, withdrawalRec, disputeRec, resolveRec, chargebackRec]

/-- Claim C6 amended: at most one of two deposit/withdrawal records
sharing a tx id is accepted; whenever the earlier one is accepted, the
later one (carrying an amount) fails with DuplicateTransaction, whatever
records are processed in between. -/
theorem claim_C6_duplicate_id (e : Engine) (r1 r2 : TransactionRecord)
    (mid : List TransactionRecord) (m2 : ℚ)
    (h1 : r1.tx_type = TransactionType.deposit ∨
      r1.tx_type = TransactionType.withdrawal)
    (h2 : r2.tx_type = TransactionType.deposit ∨
      r2.tx_type = TransactionType.withdrawal)
    (htx : r1.tx = r2.tx) (hamt : r2.amount = some m2)
    (hok : (e.process r1).2 = none) :
    ((((e.process r1).1).processAll mid).process r2).2 =
      some (EngineError.duplicateTransaction r2.tx) := by
  apply Engine.depwd_dup_fails h2 hamt
  have hst := Engine.depwd_ok_stores h1 hok
  rw [htx] at hst
  exact Engine.processAll_tx_contains_mono mid _ hst

/-- Witness for the amended C6: a second deposit reusing tx id 1 from a
different client is rejected as a duplicate. -/
theorem claim_C6_duplicate_id_witness :
    (((Engine.new.process (depositRec 1 1 100)).1.processAll []).process
        (depositRec 2 1 50)).2 =
      some (EngineError.duplicateTransaction 1) :=
  claim_C6_duplicate_id Engine.new (depositRec 1 1 100) (depositRec 2 1 50)
    [] 50 (Or.inl rfl) (Or.inl rfl) rfl rfl (by norm_num [Engine.process, Engine.proc_deposit, Engine.proc_withdrawal, Engine.proc_dispute, Engine.proc_resolve, Engine.proc_chargeback, Engine.new, Engine.disputedSum, Engine.processAll, AMap.empty, AMap.find, AMap.contains, AMap.insert, AMap.eraseKey, AMap.set, AMap.getOrInsert, AMap.dsum, Account.new, Account.deposit, Account.withdraw, Account.hold, Account.release, Account.chargeback, StoredTransaction.new, StoredTransaction.disputedAmt, depositRec, withdrawalRec, disputeRec, resolveRec, chargebackRec])

/-- Claim C8 as stated is refuted: a deposit record with a missing amount
fails with MissingAmount before the lazy account creation, so no account
for its client is materialized. -/
theorem claim_C8_counterexample :
    (Engine.new.process
        { tx_type := TransactionType.deposit, client := 1, tx := 1,
          amount := none }).2 =
      some (EngineError.missingAmount 1 TransactionType.deposit) ∧
    (Engine.new.process
        { tx_type := TransactionType.deposit, client := 1, tx := 1,
          amount := none }).1.accounts.find 1 = none :=
  ⟨rfl, rfl⟩

/-- Claim C8 amended: every deposit or withdrawal record that carries an
amount and does not reuse a stored tx id materializes an account for its
client, whether or not the fund operation succeeds. -/
theorem claim_C8_materialization (e : Engine) (r : TransactionRecord)
    (m : ℚ)
    (hty : r.tx_type = TransactionType.deposit ∨
      r.tx_type = TransactionType.withdrawal)
    (hamt : r.amount = some m)
    (hdup : e.transactions.contains r.tx = false) :
    ((e.process r).1).accounts.contains r.client = true := by
  unfold Engine.process
  rcases hty with hty | hty <;> rw [hty] <;> dsimp only
  · rcases Engine.proc_deposit_spec e r with
      ⟨hnone, -⟩ | ⟨m2, -, hd2, hres⟩ | ⟨m2, A1, a1, err2, -, -, hgoi, -, hres⟩ |
      ⟨m2, A1, a1, b, -, -, hgoi, -, hres⟩
    · rw [hnone] at hamt
      exact Option.noConfusion hamt
    · rw [hd2] at hdup
      exact Bool.noConfusion hdup
    · rw [hres]
      rcases AMap.getOrInsert_spec e.accounts r.client (Account.new r.client)
        with ⟨hfind, hA⟩ | ⟨hfind, hpair⟩ <;> rw [hgoi] at *
      · dsimp only at hfind hA
        rw [show ({ e with accounts := A1 } : Engine).accounts = A1 from rfl, hA,
          AMap.contains_eq_true_iff]
        exact ⟨a1, hfind⟩
      · injection hpair with hA ha1
        rw [show ({ e with accounts := A1 } : Engine).accounts = A1 from rfl, hA]
        exact AMap.contains_insert_self _ _ _
    · rw [hres]
      show (A1.set r.client b).contains r.client = true
      rw [AMap.contains_set]
      rcases AMap.getOrInsert_spec e.accounts r.client (Account.new r.client)
        with ⟨hfind, hA⟩ | ⟨hfind, hpair⟩ <;> rw [hgoi] at *
      · dsimp only at hfind hA
        rw [hA, AMap.contains_eq_true_iff]
        exact ⟨a1, hfind⟩
      · injection hpair with hA ha1
        rw [hA]
        exact AMap.contains_insert_self _ _ _
  · rcases Engine.proc_withdrawal_spec e r with
      ⟨hnone, -⟩ | ⟨m2, -, hd2, hres⟩ | ⟨m2, A1, a1, err2, -, -, hgoi, -, hres⟩ |
      ⟨m2, A1, a1, b, -, -, hgoi, -, hres⟩
    · rw [hnone] at hamt
      exact Option.noConfusion hamt
    · rw [hd2] at hdup
      exact Bool.noConfusion hdup
    · rw [hres]
      rcases AMap.getOrInsert_spec e.accounts r.client (Account.new r.client)
        with ⟨hfind, hA⟩ | ⟨hfind, hpair⟩ <;> rw [hgoi] at *
      · dsimp only at hfind hA
        rw [show ({ e with accounts := A1 } : Engine).accounts = A1 from rfl, hA,
          AMap.contains_eq_true_iff]
        exact ⟨a1, hfind⟩
      · injection hpair with hA ha1
        rw [show ({ e with accounts := A1 } : Engine).accounts = A1 from rfl, hA]
        exact AMap.contains_insert_self _ _ _
    · rw [hres]
      show (A1.set r.client b).contains r.client = true
      rw [AMap.contains_set]
      rcases AMap.getOrInsert_spec e.accounts r.client (Account.new r.client)
        with ⟨hfind, hA⟩ | ⟨hfind, hpair⟩ <;> rw [hgoi] at *
      · dsimp only at hfind hA
        rw [hA, AMap.contains_eq_true_iff]
        exact ⟨a1, hfind⟩
      · injection hpair with hA ha1
        rw [hA]
        exact AMap.contains_insert_self _ _ _

/-- Witness for the amended C8: a withdrawal with insufficient funds
still creates the account for client 5. -/
theorem claim_C8_materialization_witness :
    ((Engine.new.process (withdrawalRec 5 9 50)).1).accounts.contains 5 = true :=
  claim_C8_materialization Engine.new (withdrawalRec 5 9 50) 50
    (Or.inr rfl) rfl rfl


/-- Direct computation of a successful resolve: when the stored
transaction is found, owned by the client, disputed, the account exists
and the release succeeds, proc_resolve returns the updated maps. -/
theorem Engine.proc_resolve_ok_eq {E : Engine} {r : TransactionRecord}
    {s : StoredTransaction} {x y : Account}
    (hft : E.transactions.find r.tx = some s) (hcl : s.client = r.client)
    (hd : s.disputed = true) (hfa : E.accounts.find r.client = some x)
    (hrel : x.release s.amount = Except.ok y) :
    E.proc_resolve r =
      ({ accounts := E.accounts.set r.client y,
         transactions := E.transactions.set r.tx { s with disputed := false } },
        none) := by
  unfold Engine.proc_resolve
  rw [hft]
  dsimp only
  rw [if_neg (not_not_intro hcl), if_neg (not_not_intro hd), hfa]
  dsimp only
  rw [hrel]

/-- Direct computation of a successful dispute: when the stored deposit is
found, owned by the client, not disputed, the account exists and the hold
succeeds, proc_dispute returns the updated maps. -/
theorem Engine.proc_dispute_ok_eq {E : Engine} {r : TransactionRecord}
    {s : StoredTransaction} {x y : Account}
    (hft : E.transactions.find r.tx = some s) (hcl : s.client = r.client)
    (hd : s.disputed = false) (hty : s.tx_type = TransactionType.deposit)
    (hfa : E.accounts.find r.client = some x)
    (hh : x.hold s.amount = Except.ok y) :
    E.proc_dispute r =
      ({ accounts := E.accounts.set r.client y,
         transactions := E.transactions.set r.tx { s with disputed := true } },
        none) := by
  unfold Engine.proc_dispute
  rw [hft]
  dsimp only
  rw [if_neg (not_not_intro hcl), if_neg (by simp [hd]),
    if_neg (not_not_intro hty), hfa]
  dsimp only
  rw [hh]

/-- Claim C7: from any reachable state in which a dispute for (c, t)
succeeds, the immediate resolve succeeds, a second dispute succeeds, and
after the second dispute the account holds the same available and held
amounts as after the first dispute. -/
theorem claim_C7_dispute_reentrancy : ∀ e : Engine, Reachable e →
    ∀ (c t : Nat),
    (e.process (disputeRec c t)).2 = none →
    ((e.process (disputeRec c t)).1.process (resolveRec c t)).2 = none ∧
    (((e.process (disputeRec c t)).1.process (resolveRec c t)).1.process
      (disputeRec c t)).2 = none ∧
    ∃ a1 a3,
      (e.process (disputeRec c t)).1.accounts.find c = some a1 ∧
      (((e.process (disputeRec c t)).1.process (resolveRec c t)).1.process
        (disputeRec c t)).1.accounts.find c = some a3 ∧
      a3.available = a1.available ∧ a3.held = a1.held := by
  intro e he c t hok
  have hinv := Engine.reachable_inv he
  simp only [disputeRec, resolveRec] at hok ⊢
  unfold Engine.process at hok ⊢
  dsimp only at hok ⊢
  rcases Engine.proc_dispute_spec e
      ⟨TransactionType.dispute, c, t, none⟩ with
    ⟨-, hres⟩ | ⟨st, -, -, hres⟩ | ⟨st, -, -, -, hres⟩ |
    ⟨st, -, -, -, -, hres⟩ | ⟨st, -, -, -, -, -, hres⟩ |
    ⟨st, a, err, -, -, -, -, -, -, hres⟩ |
    ⟨st, a, b, hft, hcl, hd, hty2, hfa, hh, hres⟩
  iterate 6 (rw [hres] at hok; exact Option.noConfusion hok)
  dsimp only at hft hcl hfa hres
  rw [hres]
  dsimp only
  obtain ⟨hbeq, hm0, hm1⟩ := Account.hold_ok_inv hh
  obtain ⟨⟨hav0, hheld0⟩, -⟩ := hinv.2 c a hfa
  have hft1 : (e.transactions.set t { st with disputed := true }).find t =
      some { st with disputed := true } := by
    rw [AMap.find_set, if_pos rfl, hft]
    rfl
  have hfa1 : (e.accounts.set c b).find c = some b := by
    rw [AMap.find_set, if_pos rfl, hfa]
    rfl
  have hm1b : st.amount ≤ b.held := by
    rw [hbeq]
    dsimp only
    linarith
  have hrel : b.release st.amount =
      Except.ok { b with held := b.held - st.amount, available := b.available + st.amount } :=
    Account.release_ok_eq hm0 hm1b
  have hstep2 := Engine.proc_resolve_ok_eq
    (E := { accounts := e.accounts.set c b, transactions := e.transactions.set t { st with disputed := true } })
    (r := ⟨TransactionType.resolve, c, t, none⟩)
    (s := { st with disputed := true }) hft1 hcl rfl hfa1 hrel
  rw [hstep2]
  dsimp only
  refine ⟨rfl, ?_⟩
  have hft2 : ((e.transactions.set t { st with disputed := true }).set t
      { st with disputed := false }).find t = some { st with disputed := false } := by
    rw [AMap.find_set, if_pos rfl, hft1]
    rfl
  have hfa2 : ((e.accounts.set c b).set c
      { b with held := b.held - st.amount, available := b.available + st.amount }).find c =
      some { b with held := b.held - st.amount, available := b.available + st.amount } := by
    rw [AMap.find_set, if_pos rfl, hfa1]
    rfl
  have hm2b : st.amount ≤
      ({ b with held := b.held - st.amount, available := b.available + st.amount } :
        Account).available := by
    rw [hbeq]
    dsimp only
    linarith
  have hh2 : ({ b with held := b.held - st.amount, available := b.available + st.amount } :
      Account).hold st.amount =
      Except.ok { b with available := b.available + st.amount - st.amount, held := b.held - st.amount + st.amount } :=
    Account.hold_ok_eq hm0 hm2b
  have hstep3 := Engine.proc_dispute_ok_eq
    (E := { accounts := (e.accounts.set c b).set c { b with held := b.held - st.amount, available := b.available + st.amount }, transactions := (e.transactions.set t { st with disputed := true }).set t { st with disputed := false } })
    (r := ⟨TransactionType.dispute, c, t, none⟩)
    (s := { st with disputed := false }) hft2 hcl rfl hty2 hfa2 hh2
  rw [hstep3]
  dsimp only
  refine ⟨rfl, b, { b with available := b.available + st.amount - st.amount, held := b.held - st.amount + st.amount }, hfa1, ?_, ?_, ?_⟩
  · rw [AMap.find_set, if_pos rfl, hfa2]
    rfl
  · dsimp only
    ring
  · dsimp only
    ring

/-- Witness for C7 after one deposit of 100: dispute, resolve and a second
dispute all succeed and the held amount is restored. -/
theorem claim_C7_dispute_reentrancy_witness :
    (((Engine.new.process (depositRec 1 1 100)).1.process
        (disputeRec 1 1)).1.process (resolveRec 1 1)).2 = none ∧
    ((((Engine.new.process (depositRec 1 1 100)).1.process
        (disputeRec 1 1)).1.process (resolveRec 1 1)).1.process
      (disputeRec 1 1)).2 = none ∧
    ∃ a1 a3,
      ((Engine.new.process (depositRec 1 1 100)).1.process
        (disputeRec 1 1)).1.accounts.find 1 = some a1 ∧
      ((((Engine.new.process (depositRec 1 1 100)).1.process
          (disputeRec 1 1)).1.process (resolveRec 1 1)).1.process
        (disputeRec 1 1)).1.accounts.find 1 = some a3 ∧
      a3.available = a1.available ∧ a3.held = a1.held :=
  claim_C7_dispute_reentrancy _
    (Reachable.step (depositRec 1 1 100) Reachable.base) 1 1
    (by norm_num [Engine.process, Engine.proc_deposit, Engine.proc_withdrawal, Engine.proc_dispute, Engine.proc_resolve, Engine.proc_chargeback, Engine.new, Engine.disputedSum, Engine.processAll, AMap.empty, AMap.find, AMap.contains, AMap.insert, AMap.eraseKey, AMap.set, AMap.getOrInsert, AMap.dsum, Account.new, Account.deposit, Account.withdraw, Account.hold, Account.release, Account.chargeback, StoredTransaction.new, StoredTransaction.disputedAmt, depositRec, withdrawalRec, disputeRec, resolveRec, chargebackRec])


end ToyPayments
